import Mathlib

/-!
# Verification of argparseqt against its specification

Shallow embedding of the argparseqt library (groupingTools.py, typeHelpers.py,
wrappedWidgets.py, gui.py).  Python values that flow through the library are
modelled by the inductive `PyVal`; Python dicts are modelled as association
lists with Python's insert-or-update-in-place semantics (`dinsert`); code that
can raise an exception returns `Option`/`Except`.
-/

namespace Argparseqt

/-- Python values handled by the library: `None`, booleans, ints, floats
(modelled as rationals), strings, `pathlib.Path` values (carrying their
string form), tuples, lists, and string-keyed dicts (as association lists). -/
inductive PyVal where
  | none
  | bool (b : Bool)
  | int (n : Int)
  | float (q : ℚ)
  | str (s : String)
  | path (s : String)
  | tuple (xs : List PyVal)
  | list (xs : List PyVal)
  | dict (entries : List (String × PyVal))

mutual

/-- Structural equality test on `PyVal`, modelling Python `==` on the values
the library compares.  (Python's cross-type numeric equalities such as
`True == 1` are not modelled; no code path in the claims depends on them.) -/
def PyVal.beq : PyVal → PyVal → Bool
  | .none, .none => true
  | .bool a, .bool b => a == b
  | .int a, .int b => a == b
  | .float a, .float b => a == b
  | .str a, .str b => a == b
  | .path a, .path b => a == b
  | .tuple a, .tuple b => PyVal.beqList a b
  | .list a, .list b => PyVal.beqList a b
  | .dict a, .dict b => PyVal.beqDict a b
  | _, _ => false

/-- Elementwise equality test for lists of `PyVal`. -/
def PyVal.beqList : List PyVal → List PyVal → Bool
  | [], [] => true
  | a :: as, b :: bs => PyVal.beq a b && PyVal.beqList as bs
  | _, _ => false

/-- Elementwise equality test for string-keyed entry lists of `PyVal`. -/
def PyVal.beqDict : List (String × PyVal) → List (String × PyVal) → Bool
  | [], [] => true
  | (k, a) :: as, (k2, b) :: bs => k == k2 && PyVal.beq a b && PyVal.beqDict as bs
  | _, _ => false

end

mutual

theorem PyVal.beq_refl : ∀ a : PyVal, PyVal.beq a a = true
  | .none => rfl
  | .bool a => by simp [PyVal.beq]
  | .int a => by simp [PyVal.beq]
  | .float a => by simp [PyVal.beq]
  | .str a => by simp [PyVal.beq]
  | .path a => by simp [PyVal.beq]
  | .tuple a => by simp [PyVal.beq, PyVal.beqList_refl a]
  | .list a => by simp [PyVal.beq, PyVal.beqList_refl a]
  | .dict a => by simp [PyVal.beq, PyVal.beqDict_refl a]

theorem PyVal.beqList_refl : ∀ xs : List PyVal, PyVal.beqList xs xs = true
  | [] => rfl
  | a :: as => by simp [PyVal.beqList, PyVal.beq_refl a, PyVal.beqList_refl as]

theorem PyVal.beqDict_refl : ∀ xs : List (String × PyVal), PyVal.beqDict xs xs = true
  | [] => rfl
  | (k, a) :: as => by
      simp [PyVal.beqDict, PyVal.beq_refl a, PyVal.beqDict_refl as]

end

mutual

theorem PyVal.eq_of_beq : ∀ a b : PyVal, PyVal.beq a b = true → a = b
  | .none, b, h => by
      cases b <;> first | rfl | exact Bool.noConfusion h
  | .bool a, b, h => by
      cases b <;> try exact Bool.noConfusion h
      exact congrArg PyVal.bool (by simpa [PyVal.beq] using h)
  | .int a, b, h => by
      cases b <;> try exact Bool.noConfusion h
      exact congrArg PyVal.int (by simpa [PyVal.beq] using h)
  | .float a, b, h => by
      cases b <;> try exact Bool.noConfusion h
      exact congrArg PyVal.float (by simpa [PyVal.beq] using h)
  | .str a, b, h => by
      cases b <;> try exact Bool.noConfusion h
      exact congrArg PyVal.str (by simpa [PyVal.beq] using h)
  | .path a, b, h => by
      cases b <;> try exact Bool.noConfusion h
      exact congrArg PyVal.path (by simpa [PyVal.beq] using h)
  | .tuple a, b, h => by
      cases b <;> try exact Bool.noConfusion h
      case tuple bs =>
        exact congrArg PyVal.tuple
          (PyVal.eqList_of_beqList a bs (by simpa [PyVal.beq] using h))
  | .list a, b, h => by
      cases b <;> try exact Bool.noConfusion h
      case list bs =>
        exact congrArg PyVal.list
          (PyVal.eqList_of_beqList a bs (by simpa [PyVal.beq] using h))
  | .dict a, b, h => by
      cases b <;> try exact Bool.noConfusion h
      case dict bs =>
        exact congrArg PyVal.dict
          (PyVal.eqDict_of_beqDict a bs (by simpa [PyVal.beq] using h))

theorem PyVal.eqList_of_beqList :
    ∀ xs ys : List PyVal, PyVal.beqList xs ys = true → xs = ys
  | [], [], _ => rfl
  | [], _ :: _, h => Bool.noConfusion h
  | _ :: _, [], h => Bool.noConfusion h
  | a :: as, b :: bs, h => by
      simp only [PyVal.beqList, Bool.and_eq_true] at h
      rw [PyVal.eq_of_beq a b h.1, PyVal.eqList_of_beqList as bs h.2]

theorem PyVal.eqDict_of_beqDict :
    ∀ xs ys : List (String × PyVal), PyVal.beqDict xs ys = true → xs = ys
  | [], [], _ => rfl
  | [], _ :: _, h => Bool.noConfusion h
  | _ :: _, [], h => Bool.noConfusion h
  | (k, a) :: as, (k2, b) :: bs, h => by
      simp only [PyVal.beqDict, Bool.and_eq_true, beq_iff_eq] at h
      rw [h.1.1, PyVal.eq_of_beq a b h.1.2, PyVal.eqDict_of_beqDict as bs h.2]

end

instance : BEq PyVal := ⟨PyVal.beq⟩

instance : LawfulBEq PyVal where
  eq_of_beq h := PyVal.eq_of_beq _ _ h
  rfl := PyVal.beq_refl _

instance : DecidableEq PyVal := fun a b =>
  decidable_of_iff (PyVal.beq a b = true)
    ⟨PyVal.eq_of_beq a b, fun h => h ▸ PyVal.beq_refl a⟩

/-- The `type` attribute of an argparse action, as inspected by
`wrappedWidgets.makeWidget`: `None` (no declared type), the builtin types
`int`/`float`/`bool`/`str`, the helpers `typeHelpers.rgb`/`typeHelpers.rgba`,
`pathlib.Path`, `typeHelpers.Serial`, the bare `list`/`typing.List` type
(`listT`), a parametrized `typing.List[T]` (`listOfT`), or any other callable
(matched by no branch of the dispatch). -/
inductive DataType where
  | noneType
  | intT
  | floatT
  | boolT
  | strT
  | rgbT
  | rgbaT
  | pathT
  | serialT
  | listT
  | listOfT (sub : DataType)
  | customT (name : String)
deriving DecidableEq

/-- Python dict lookup `d[k]` / `k in d` on a string-keyed association list. -/
def dlookup {α : Type} : List (String × α) → String → Option α
  | [], _ => Option.none
  | (k, v) :: rest, key => if k = key then some v else dlookup rest key

/-- Python dict assignment `d[k] = v`: update the existing entry in place if
the key is present, otherwise append the new entry at the end. -/
def dinsert {α : Type} : List (String × α) → String → α → List (String × α)
  | [], k, v => [(k, v)]
  | (k0, v0) :: rest, k, v =>
      if k0 = k then (k0, v) :: rest else (k0, v0) :: dinsert rest k v

/-- The keys of an association-list dict, in order. -/
def dkeys {α : Type} (l : List (String × α)) : List String := l.map Prod.fst

/-- Python dict merge `{**a, **b}`: entries of `b` inserted into `a` in order. -/
def dictMerge {α : Type} (a b : List (String × α)) : List (String × α) :=
  b.foldl (fun acc kv => dinsert acc kv.1 kv.2) a

theorem dlookup_append_left {α : Type} {a : List (String × α)} {k : String} {v : α}
    (b : List (String × α)) (h : dlookup a k = some v) :
    dlookup (a ++ b) k = some v := by
  induction a with
  | nil => simp [dlookup] at h
  | cons hd tl ih =>
    obtain ⟨k0, v0⟩ := hd
    rw [List.cons_append]
    by_cases hk : k0 = k
    · simpa [dlookup, hk] using h
    · simp only [dlookup, if_neg hk] at h ⊢
      exact ih h

theorem dlookup_append_right {α : Type} {a : List (String × α)} {k : String}
    (b : List (String × α)) (h : k ∉ dkeys a) :
    dlookup (a ++ b) k = dlookup b k := by
  induction a with
  | nil => simp
  | cons hd tl ih =>
    obtain ⟨k0, v0⟩ := hd
    have h1 : ¬ k0 = k := fun hc => h (by simp [dkeys, hc])
    have h2 : k ∉ dkeys tl := fun hc => h (by simp [dkeys] at hc ⊢; exact Or.inr hc)
    rw [List.cons_append]
    simp only [dlookup, if_neg h1]
    exact ih h2

theorem dlookup_notmem {α : Type} {a : List (String × α)} {k : String}
    (h : k ∉ dkeys a) : dlookup a k = Option.none := by
  induction a with
  | nil => rfl
  | cons hd tl ih =>
    obtain ⟨k0, v0⟩ := hd
    have h1 : ¬ k0 = k := fun hc => h (by simp [dkeys, hc])
    have h2 : k ∉ dkeys tl := fun hc => h (by simp [dkeys] at hc ⊢; exact Or.inr hc)
    simp only [dlookup, if_neg h1]
    exact ih h2

theorem dinsert_notmem {α : Type} {l : List (String × α)} {k : String} (v : α)
    (h : k ∉ dkeys l) : dinsert l k v = l ++ [(k, v)] := by
  induction l with
  | nil => rfl
  | cons hd tl ih =>
    obtain ⟨k0, v0⟩ := hd
    have h1 : ¬ k0 = k := fun hc => h (by simp [dkeys, hc])
    have h2 : k ∉ dkeys tl := fun hc => h (by simp [dkeys] at hc ⊢; exact Or.inr hc)
    simp only [dinsert, if_neg h1, List.cons_append]
    rw [ih h2]

/-- Building a dict by repeated insertion of pairwise-distinct fresh keys is
the same as appending the corresponding entry list. -/
theorem foldl_dinsert_eq_append {β : Type} {α : Type}
    (f : β → String) (g : β → α) :
    ∀ (xs : List β) (init : List (String × α)),
      (xs.map f).Nodup → (∀ x ∈ xs, f x ∉ dkeys init) →
      xs.foldl (fun d x => dinsert d (f x) (g x)) init
        = init ++ xs.map (fun x => (f x, g x)) := by
  intro xs
  induction xs with
  | nil => intro init _ _; simp
  | cons x tl ih =>
    intro init hnd hfresh
    simp only [List.map_cons, List.nodup_cons] at hnd
    simp only [List.foldl_cons]
    rw [dinsert_notmem (g x) (hfresh x (List.mem_cons_self x tl))]
    rw [ih (init ++ [(f x, g x)]) hnd.2 ?_]
    · simp
    · intro y hy
      simp only [dkeys, List.map_append, List.mem_append]
      push_neg
      constructor
      · intro hc
        exact hfresh y (List.mem_cons_of_mem x hy) (by simpa [dkeys] using hc)
      · simp only [List.map_cons, List.map_nil, List.mem_singleton]
        intro hc
        exact hnd.1 (hc ▸ (List.mem_map_of_mem f hy))

/-! ## typeHelpers.py -/

/-- Value of an ASCII hex digit, given its code point (0 on non-digits; only
used under an `isHexDigitC` guard). -/
def hexValN (n : Nat) : Nat :=
  if 48 ≤ n ∧ n ≤ 57 then n - 48
  else if 97 ≤ n ∧ n ≤ 102 then n - 87
  else if 65 ≤ n ∧ n ≤ 70 then n - 55
  else 0

/-- The hex digits accepted by Python `int(-, 16)`: `0-9`, `a-f`, `A-F`. -/
def isHexDigitC (c : Char) : Bool :=
  decide ((48 ≤ c.toNat ∧ c.toNat ≤ 57) ∨ (97 ≤ c.toNat ∧ c.toNat ≤ 102)
    ∨ (65 ≤ c.toNat ∧ c.toNat ≤ 70))

/-- Whitespace stripped by Python `int(-, 16)` around its argument. -/
def isPySpace (c : Char) : Bool :=
  c == ' ' || c == '\t' || c == '\n' || c == '\r'
    || c == Char.ofNat 11 || c == Char.ofNat 12

/-- Value of a nonempty string of hex digits; `none` if empty or if any
character is not a hex digit. -/
def hexDigitsVal (cs : List Char) : Option Int :=
  if cs.isEmpty then Option.none
  else if cs.all isHexDigitC then
    some (cs.foldl (fun acc c => acc * 16 + (hexValN c.toNat : Int)) 0)
  else Option.none

/-- Python `int(s, 16)`: surrounding whitespace is stripped, one optional
leading sign is accepted, and the rest must be a nonempty run of hex digits.
(Underscore digit separators need a digit on both sides, hence at least three
characters; they can never occur in the two-character slices `rgb`/`rgba`
take, so they are not modelled.) -/
def pyIntHex (s : String) : Option Int :=
  let t := ((s.toList.dropWhile isPySpace).reverse.dropWhile isPySpace).reverse
  match t with
  | [] => Option.none
  | c :: rest =>
      if c = '+' then hexDigitsVal rest
      else if c = '-' then (hexDigitsVal rest).map (fun n => -n)
      else hexDigitsVal (c :: rest)

/-- Python slice `s[i:j]` on a string (for `i ≤ j`). -/
def pySlice (s : String) (i j : Nat) : String :=
  String.mk ((s.toList.drop i).take (j - i))

/-- `typeHelpers.rgb`: reject strings whose length is not 6, otherwise parse
the three 2-character slices with `int(-, 16)`, packaging any `ValueError`
as an `ArgumentTypeError` (the `error` case). -/
def rgb (val : String) : Except String (Int × Int × Int) :=
  if val.length ≠ 6 then .error ("Expected 6 characters but received " ++ val)
  else
    match pyIntHex (pySlice val 0 2), pyIntHex (pySlice val 2 4),
        pyIntHex (pySlice val 4 6) with
    | some r, some g, some b => .ok (r, g, b)
    | _, _, _ => .error ("Invalid hex string: " ++ val)

/-- `typeHelpers.rgba`: as `rgb` but with length 8 and four slices. -/
def rgba (val : String) : Except String (Int × Int × Int × Int) :=
  if val.length ≠ 8 then .error ("Expected 8 characters but received " ++ val)
  else
    match pyIntHex (pySlice val 0 2), pyIntHex (pySlice val 2 4),
        pyIntHex (pySlice val 4 6), pyIntHex (pySlice val 6 8) with
    | some r, some g, some b, some a => .ok (r, g, b, a)
    | _, _, _, _ => .error ("Invalid hex string: " ++ val)

/-- A string made of hex digits only — the plain reading of the claim's
phrase "valid hexadecimal". -/
def isHexString (s : String) : Bool := s.toList.all isHexDigitC

theorem hexValN_le (n : Nat) : hexValN n ≤ 15 := by
  unfold hexValN
  split
  · omega
  · split
    · omega
    · split <;> omega

theorem hexDigitsVal_bounds {cs : List Char} {v : Int}
    (h : hexDigitsVal cs = some v) (hlen : cs.length ≤ 2) :
    0 ≤ v ∧ v ≤ 255 := by
  match cs with
  | [] => simp [hexDigitsVal] at h
  | [c] =>
    rw [hexDigitsVal] at h
    simp only [List.isEmpty_cons, if_false, Bool.false_eq_true] at h
    split at h
    · have h15 := hexValN_le c.toNat
      simp only [List.foldl_cons, List.foldl_nil] at h
      have hv : (0 : Int) * 16 + (hexValN c.toNat : Int) = v := Option.some_inj.mp h
      omega
    · exact absurd h (by simp)
  | [c1, c2] =>
    rw [hexDigitsVal] at h
    simp only [List.isEmpty_cons, if_false, Bool.false_eq_true] at h
    split at h
    · have ha := hexValN_le c1.toNat
      have hb := hexValN_le c2.toNat
      simp only [List.foldl_cons, List.foldl_nil] at h
      have hv : ((0 : Int) * 16 + (hexValN c1.toNat : Int)) * 16
          + (hexValN c2.toNat : Int) = v := Option.some_inj.mp h
      omega
    · exact absurd h (by simp)
  | _ :: _ :: _ :: _ => simp at hlen

theorem hexDigitsVal_bounds1 {cs : List Char} {v : Int}
    (h : hexDigitsVal cs = some v) (hlen : cs.length ≤ 1) :
    0 ≤ v ∧ v ≤ 15 := by
  match cs with
  | [] => simp [hexDigitsVal] at h
  | [c] =>
    rw [hexDigitsVal] at h
    simp only [List.isEmpty_cons, if_false, Bool.false_eq_true] at h
    split at h
    · have h15 := hexValN_le c.toNat
      simp only [List.foldl_cons, List.foldl_nil] at h
      have hv : (0 : Int) * 16 + (hexValN c.toNat : Int) = v := Option.some_inj.mp h
      omega
    · exact absurd h (by simp)
  | _ :: _ :: _ => simp at hlen

theorem strip_length_le (l : List Char) :
    (((l.dropWhile isPySpace).reverse.dropWhile isPySpace).reverse).length
      ≤ l.length := by
  calc (((l.dropWhile isPySpace).reverse.dropWhile isPySpace).reverse).length
      = ((l.dropWhile isPySpace).reverse.dropWhile isPySpace).length :=
        List.length_reverse _
    _ ≤ (l.dropWhile isPySpace).reverse.length :=
        ((List.dropWhile_suffix _).sublist).length_le
    _ = (l.dropWhile isPySpace).length := List.length_reverse _
    _ ≤ l.length := ((List.dropWhile_suffix _).sublist).length_le

theorem toList_length (s : String) : s.toList.length = s.length := rfl

/-- Any value Python `int(-, 16)` extracts from a two-character string lies
in `[-15, 255]`: either both characters are hex digits (`[0, 255]`), or a
sign or stripped whitespace leaves at most one digit (`[-15, 15]`). -/
theorem pyIntHex_bounds {s : String} {v : Int}
    (h : pyIntHex s = some v) (hlen : s.length = 2) :
    -15 ≤ v ∧ v ≤ 255 := by
  rw [pyIntHex] at h
  have hst : (((s.toList.dropWhile isPySpace).reverse.dropWhile
      isPySpace).reverse).length ≤ 2 := by
    have := strip_length_le s.toList
    rw [toList_length, hlen] at this
    exact this
  revert h hst
  generalize ((s.toList.dropWhile isPySpace).reverse.dropWhile isPySpace).reverse = t
  intro h hst
  match t with
  | [] => simp at h
  | c :: rest =>
    simp only at h
    have hrest : rest.length ≤ 1 := by simpa using hst
    split at h
    · have := hexDigitsVal_bounds1 h hrest
      omega
    · split at h
      · match hw : hexDigitsVal rest with
        | Option.none => rw [hw] at h; simp at h
        | some w =>
          rw [hw] at h
          simp only [Option.map_some'] at h
          have := hexDigitsVal_bounds1 hw hrest
          have hv : -w = v := Option.some_inj.mp h
          omega
      · have := hexDigitsVal_bounds h (by simpa using hst)
        omega

theorem dlookup_map_eq {β : Type} {α : Type} (f : β → String) (g : β → α)
    (xs : List β) (x : β) (hx : x ∈ xs) (hnd : (xs.map f).Nodup) :
    dlookup (xs.map fun y => (f y, g y)) (f x) = some (g x) := by
  induction xs with
  | nil => cases hx
  | cons hd tl ih =>
    simp only [List.map_cons, List.nodup_cons] at hnd
    rcases List.mem_cons.mp hx with h | h
    · subst h; simp [dlookup]
    · have hne : f hd ≠ f x := by
        intro hc
        exact hnd.1 (hc ▸ List.mem_map_of_mem f h)
      simp only [List.map_cons, dlookup, if_neg hne]
      exact ih h hnd.2

theorem dlookup_isSome_of_mem {α : Type} {l : List (String × α)} {k : String}
    (h : k ∈ dkeys l) : (dlookup l k).isSome := by
  induction l with
  | nil => simp [dkeys] at h
  | cons hd tl ih =>
    obtain ⟨k0, v0⟩ := hd
    by_cases hk : k0 = k
    · simp [dlookup, hk]
    · simp only [dlookup, if_neg hk]
      exact ih (by
        simp only [dkeys, List.map_cons, List.mem_cons] at h
        exact h.resolve_left (fun hc => hk hc.symm))

theorem dlookup_append_mem {α : Type} {a : List (String × α)} {k : String}
    (b : List (String × α)) (h : k ∈ dkeys a) :
    dlookup (a ++ b) k = dlookup a k := by
  obtain ⟨v, hv⟩ := Option.isSome_iff_exists.mp (dlookup_isSome_of_mem h)
  rw [hv, dlookup_append_left b hv]

/-! ## The argparse data model -/

/-- The kind of an argparse action: a plain store action, `store_true`,
`store_false`, `store_const` (carrying its `const`), or the auto-added
help action (`argparse._HelpAction`). -/
inductive ActionKind where
  | store
  | storeTrue
  | storeFalse
  | storeConst (const : PyVal)
  | helpAction
deriving DecidableEq

/-- An argparse action (option declaration): destination name, declared
type, default value, optional choices, optional help text, and kind. -/
structure Action where
  dest : String
  dtype : DataType
  defaultVal : PyVal
  choices : Option (List PyVal)
  helpText : Option String
  kind : ActionKind
deriving DecidableEq

/-- An argparse argument group: title, optional description, and its
`_group_actions`. -/
structure ArgGroup where
  title : String
  description : Option String
  groupActions : List Action
deriving DecidableEq

/-- An argparse parser: description and its `_action_groups`. -/
structure Parser where
  description : Option String
  actionGroups : List ArgGroup
deriving DecidableEq

/-- The test `type(action) == argparse._HelpAction` that both grouping
functions use to skip help actions. -/
def isHelpAction (a : Action) : Bool :=
  match a.kind with
  | .helpAction => true
  | _ => false

/-- The non-help actions of a group, in declaration order. -/
def nonHelp (g : ArgGroup) : List Action :=
  g.groupActions.filter (fun a => ! isHelpAction a)

/-- The two reserved "ungrouped" bucket titles that `parseIntoGroups` (and
the GUI) flatten to the top level. -/
def reservedTitles : List String := ["positional arguments", "optional arguments"]

/-- The dest-keyed dict of a group's non-help actions, built exactly as the
inner loop of `organizeIntoGroups` builds it. -/
def innerDict (g : ArgGroup) : List (String × Action) :=
  (nonHelp g).foldl (fun d a => dinsert d a.dest a) []

/-- `groupingTools.organizeIntoGroups`: one entry per action group, in
order, each with a dest-keyed dict of the group's non-help actions.
(Python keys the outer dict by the group objects themselves, which are
identity-distinct, so it is modelled as the entry list in iteration
order.) -/
def organizeIntoGroups (p : Parser) : List (ArgGroup × List (String × Action)) :=
  p.actionGroups.map (fun g => (g, innerDict g))

/-- The value dict one group contributes to `parseIntoGroups`. -/
def innerValues (args : String → PyVal) (g : ArgGroup) : List (String × PyVal) :=
  (nonHelp g).foldl (fun d a => dinsert d a.dest (args a.dest)) []

/-- `groupingTools.parseIntoGroups`: values of arguments in the two reserved
groups go directly into the top-level dict, every other group contributes a
nested dict keyed by its title.  The parsed namespace
`vars(parser.parse_args())` is supplied as the function `args` (command-line
parsing itself is Python stdlib, outside this repository). -/
def parseIntoGroups (p : Parser) (args : String → PyVal) : List (String × PyVal) :=
  p.actionGroups.foldl (fun top g =>
    if g.title ∈ reservedTitles then
      (nonHelp g).foldl (fun t a => dinsert t a.dest (args a.dest)) top
    else
      dinsert top g.title (.dict (innerValues args g))) []

/-- State-transformer form of `organizeIntoGroups`: the source performs no
assignment to any action or group field, so the parser passes through
unchanged. -/
def organizeIntoGroupsST (p : Parser) :
    (List (ArgGroup × List (String × Action))) × Parser :=
  (organizeIntoGroups p, p)

/-- State-transformer form of `parseIntoGroups`: the source performs no
assignment to any action or group field, so the parser passes through
unchanged. -/
def parseIntoGroupsST (p : Parser) (args : String → PyVal) :
    (List (String × PyVal)) × Parser :=
  (parseIntoGroups p args, p)

/-- The top-level keys `parseIntoGroups` writes, in order: dests of reserved
groups, titles of the others. -/
def groupKeys (g : ArgGroup) : List String :=
  if g.title ∈ reservedTitles then (nonHelp g).map Action.dest else [g.title]

/-- All top-level keys of `parseIntoGroups p`. -/
def topKeys (p : Parser) : List String :=
  (p.actionGroups.map groupKeys).flatten

/-- The top-level entries one group contributes to `parseIntoGroups`. -/
def groupEntries (args : String → PyVal) (g : ArgGroup) : List (String × PyVal) :=
  if g.title ∈ reservedTitles then
    (nonHelp g).map (fun a => (a.dest, args a.dest))
  else
    [(g.title, .dict (innerValues args g))]

theorem dkeys_groupEntries (args : String → PyVal) (g : ArgGroup) :
    dkeys (groupEntries args g) = groupKeys g := by
  unfold dkeys groupEntries groupKeys
  split <;> simp

theorem innerValues_eq_map (args : String → PyVal) (g : ArgGroup)
    (hnd : ((nonHelp g).map Action.dest).Nodup) :
    innerValues args g = (nonHelp g).map (fun a => (a.dest, args a.dest)) := by
  unfold innerValues
  rw [foldl_dinsert_eq_append Action.dest (fun a => args a.dest) (nonHelp g) [] hnd
    (by intro x _ hc; simp [dkeys] at hc)]
  simp

theorem innerDict_eq_map (g : ArgGroup)
    (hnd : ((nonHelp g).map Action.dest).Nodup) :
    innerDict g = (nonHelp g).map (fun a => (a.dest, a)) := by
  unfold innerDict
  rw [foldl_dinsert_eq_append Action.dest (fun a => a) (nonHelp g) [] hnd
    (by intro x _ hc; simp [dkeys] at hc)]
  simp

/-- Shape of `parseIntoGroups` when all top-level keys are distinct: the
concatenation of each group's contribution, in group order. -/
theorem parseIntoGroups_shape (args : String → PyVal) :
    ∀ (gs : List ArgGroup) (init : List (String × PyVal)),
      ((gs.map groupKeys).flatten).Nodup →
      (∀ k ∈ (gs.map groupKeys).flatten, k ∉ dkeys init) →
      gs.foldl (fun top g =>
        if g.title ∈ reservedTitles then
          (nonHelp g).foldl (fun t a => dinsert t a.dest (args a.dest)) top
        else
          dinsert top g.title (.dict (innerValues args g))) init
        = init ++ (gs.map (groupEntries args)).flatten := by
  intro gs
  induction gs with
  | nil => intro init _ _; simp
  | cons g tl ih =>
    intro init hnd hfresh
    simp only [List.map_cons, List.flatten_cons] at hnd hfresh
    have hnd1 : (groupKeys g).Nodup := (List.nodup_append.mp hnd).1
    have hnd2 : ((tl.map groupKeys).flatten).Nodup := (List.nodup_append.mp hnd).2.1
    have hdisj := (List.nodup_append.mp hnd).2.2
    have hstep :
        (if g.title ∈ reservedTitles then
          (nonHelp g).foldl (fun t a => dinsert t a.dest (args a.dest)) init
        else dinsert init g.title (.dict (innerValues args g)))
          = init ++ groupEntries args g := by
      by_cases hres : g.title ∈ reservedTitles
      · rw [if_pos hres]
        unfold groupEntries
        rw [if_pos hres]
        exact foldl_dinsert_eq_append Action.dest (fun a => args a.dest)
          (nonHelp g) init (by simpa [groupKeys, hres] using hnd1)
          (fun x hx => hfresh x.dest
            (List.mem_append_left _
              (by simpa [groupKeys, hres] using List.mem_map_of_mem Action.dest hx)))
      · rw [if_neg hres]
        unfold groupEntries
        rw [if_neg hres]
        exact dinsert_notmem _
          (hfresh g.title (List.mem_append_left _ (by simp [groupKeys, hres])))
    rw [List.foldl_cons, hstep]
    rw [ih (init ++ groupEntries args g) hnd2 ?_]
    · simp
    · intro k hk
      rw [dkeys, List.map_append, ← dkeys, ← dkeys, List.mem_append,
        dkeys_groupEntries]
      push_neg
      constructor
      · exact hfresh k (List.mem_append_right _ hk)
      · intro hc
        exact hdisj hc hk

/-! ## wrappedWidgets.py: widget states -/

/-- One entry of a Qt combo box: display label, item data, and whether it is
a separator item (`insertSeparator` adds an item with empty text and `None`
data). -/
structure Entry where
  label : String
  data : PyVal
  isSep : Bool

/-- Environment of `makeWidget`: whether the optional `serial` module was
imported, and the ports `serial.tools.list_ports.comports()` reports
(device name and description). -/
structure Ctx where
  serialAvailable : Bool
  serialPorts : List (String × String)

/-- Widget states.  `combo` covers `ComboBox` and its subclass
`BoolSelector`; `spin`/`dspin` keep the spin-box value together with a flag
recording whether `clear()` blanked the display; `listW` keeps the resolved
element type and the wrapped child widgets (inner state plus the child
wrapper's `nulled` flag — a child's `defaultValue` is always `None`). -/
inductive W where
  | combo (entries : List Entry) (idx : Nat)
  | spin (v : Int) (displayCleared : Bool)
  | dspin (v : ℚ) (displayCleared : Bool)
  | lineEdit (text : String)
  | colorW (hasAlpha : Bool) (v : List PyVal)
  | fileW (text : String)
  | serialW (entries : List Entry) (idx : Nat)
  | listW (sub : DataType) (children : List (W × Bool))

/-- Python `str(-)` as the library uses it.  Scalars are rendered exactly;
container renderings only feed cosmetic combo labels and the line-edit text
of values that are never round-tripped, so they are rendered by a placeholder
rather than Python's exact repr. -/
def pyStr : PyVal → String
  | .none => "None"
  | .bool b => if b then "True" else "False"
  | .int n => toString n
  | .float q => toString q
  | .str s => s
  | .path s => s
  | .tuple _ => "tuple"
  | .list _ => "list"
  | .dict _ => "dict"

/-- `ComboBox.setOptions`: clear, add an empty-labelled entry with `None`
data, a separator, then one entry per value with `str(label)` text.  (The
loop indexes `labels[i]`; every call site passes lists of equal length,
modelled by `zip`.) -/
def comboSetOptions (values : List PyVal) (labels : List PyVal) : List Entry :=
  ⟨"", PyVal.none, false⟩ :: ⟨"", PyVal.none, true⟩ ::
    (values.zip labels).map (fun vl => ⟨pyStr vl.2, vl.1, false⟩)

/-- A fresh `ComboBox(values, labels)`; Qt selects index 0 when the first
item is added. -/
def comboNew (values labels : List PyVal) : W :=
  .combo (comboSetOptions values labels) 0

/-- A fresh `BoolSelector()` = `ComboBox([True, False], [trueLabel,
falseLabel])` with the default labels. -/
def boolSelectorNew : W :=
  comboNew [.bool true, .bool false] [.str "True", .str "False"]

/-- The scan of `ComboBox.setValue`: index of the first entry whose data
compares equal to the value. -/
def comboFindIdx (es : List Entry) (v : PyVal) : Option Nat :=
  es.findIdx? (fun e => e.data == v)

/-- `ComboBox.setValue`: select the first entry whose data equals the value;
leave the selection unchanged when none does. -/
def comboSet (es : List Entry) (idx : Nat) (v : PyVal) : Nat :=
  (comboFindIdx es v).getD idx

/-- `ComboBox.value` = `currentData()` (`None` out of range, as for Qt's
invalid index). -/
def comboData (es : List Entry) (idx : Nat) : PyVal :=
  match es[idx]? with
  | some e => e.data
  | Option.none => PyVal.none

/-- `SerialPortChooser.getPortsAndLabels`. -/
def portsAndLabels (ctx : Ctx) : List PyVal × List PyVal :=
  (ctx.serialPorts.map (fun p => PyVal.str p.1),
   ctx.serialPorts.map (fun p => PyVal.str (p.2 ++ " (" ++ p.1 ++ ")")))

/-- A fresh `SerialPortChooser` (a plain `QWidget` holding a `ComboBox` over
the current ports). -/
def serialNew (ctx : Ctx) : W :=
  .serialW (comboSetOptions (portsAndLabels ctx).1 (portsAndLabels ctx).2) 0

/-- `ListWidget.__init__`: `typing.get_args(dataType)` first element, with
`str` fallback (bare `list`/`typing.List` have no type arguments). -/
def resolveSub : DataType → DataType
  | .listOfT s => s
  | _ => .strT

/-- `dataType == list or typing.get_origin(dataType) == list`. -/
def isListType : DataType → Bool
  | .listT => true
  | .listOfT _ => true
  | _ => false

/-- `not isinstance(widget, QtWidgets.QComboBox)`: only `ComboBox` and its
subclass `BoolSelector` are `QComboBox` instances (`SerialPortChooser` is a
plain `QWidget` containing one, so it counts as nullable). -/
def nullableOf : W → Bool
  | .combo _ _ => false
  | _ => true

/-- The inner widget's `clearValue` (or `clear`, patched in as `clearValue`
by `ResetableWidget.__init__` when absent): combo boxes select the empty
entry; spin boxes blank their display but keep their value; line edits and
the file chooser clear their text; the color widget resets to zeros; the
serial chooser delegates to its combo; the list widget discards its
children. -/
def innerClearValue : W → W
  | .combo es idx => .combo es (comboSet es idx PyVal.none)
  | .spin v _ => .spin v true
  | .dspin v _ => .dspin v true
  | .lineEdit _ => .lineEdit ""
  | .colorW a _ =>
      if a then .colorW a [.int 0, .int 0, .int 0, .int 0]
      else .colorW a [.int 0, .int 0, .int 0]
  | .fileW _ => .fileW ""
  | .serialW es idx => .serialW es (comboSet es idx PyVal.none)
  | .listW sub _ => .listW sub []

/-- Integer components (Python bools are ints), as `QColor` accepts. -/
def isIntLike : PyVal → Bool
  | .int _ => true
  | .bool _ => true
  | _ => false

/-- Contents accepted by the `QColor(*val)` construction in
`ColorWidget.setValue`: 3 or 4 integer components. -/
def colorOk (xs : List PyVal) : Bool :=
  xs.all isIntLike && (xs.length == 3 || xs.length == 4)

/-- `ColorWidget.setValue`: strings are parsed with `rgb`/`rgba` according
to `hasAlpha` (parse failures raise `ArgumentTypeError`); other values are
converted with `tuple(val)` and must give 3 or 4 integer components for the
`QColor` construction.  (On a `QColor` `TypeError` Python leaves a
partially-updated `colorValue` behind; the failing case is modelled as a
plain error since no claim observes the partial state.) -/
def colorSet (hasAlpha : Bool) (v : PyVal) : Option W :=
  match v with
  | .str s =>
      if hasAlpha then
        match rgba s with
        | .ok (r, g, b, a) =>
            some (.colorW hasAlpha [.int r, .int g, .int b, .int a])
        | .error _ => Option.none
      else
        match rgb s with
        | .ok (r, g, b) => some (.colorW hasAlpha [.int r, .int g, .int b])
        | .error _ => Option.none
  | .tuple xs => if colorOk xs then some (.colorW hasAlpha xs) else Option.none
  | .list xs => if colorOk xs then some (.colorW hasAlpha xs) else Option.none
  | _ => Option.none

/-- `SpinBox` bounds (`minimum = -2**30`, `maximum = 2**30`); Qt clamps
`setValue` into the range. -/
def clampI (n : Int) : Int := max (-(2 ^ 30)) (min n (2 ^ 30))

/-- `DoubleSpinBox` bounds; Qt clamps `setValue` into the range. -/
def clampQ (q : ℚ) : ℚ := max (-(2 ^ 30)) (min q (2 ^ 30))

/-- `QDoubleSpinBox` rounds set values to `decimals() = 4` places. -/
def round4 (q : ℚ) : ℚ := (⌊q * 10000 + 1 / 2⌋ : ℚ) / 10000

/-- The first parameter of `makeWidget`: an argparse action, or a bare type
(as `ListWidget._addKid` passes for list elements). -/
inductive ArgOrType where
  | action (a : Action)
  | typ (t : DataType)

/-- The type-dispatch chain of `makeWidget` (the `widget is None` part,
lines 44-73 of wrappedWidgets.py), producing the initial widget state. -/
def makeInnerType (ctx : Ctx) (dt : DataType) (choices : Option (List PyVal)) : W :=
  match choices with
  | some cs => comboNew cs cs
  | Option.none =>
      if dt = DataType.intT then .spin 0 false
      else if dt = DataType.floatT then .dspin 0 false
      else if dt = DataType.boolT then boolSelectorNew
      else if dt = DataType.rgbT then .colorW false [.int 0, .int 0, .int 0]
      else if dt = DataType.rgbaT then .colorW true [.int 0, .int 0, .int 0, .int 0]
      else if dt = DataType.pathT then .fileW ""
      else if ctx.serialAvailable = true ∧ dt = DataType.serialT then serialNew ctx
      else if isListType dt then .listW (resolveSub dt) []
      else .lineEdit ""

/-- The widget-selection logic of `makeWidget` (lines 25-73): `store_const`
actions get a single-choice combo, `store_true`/`store_false` actions get a
boolean selector, everything else goes through the type dispatch with
`choices = choices if choices is not None else argument.choices`. -/
def makeInner (ctx : Ctx) (x : ArgOrType) (choicesParam : Option (List PyVal)) : W :=
  match x with
  | .action a =>
      let choices := match choicesParam with
        | some cs => some cs
        | Option.none => a.choices
      match a.kind with
      | .storeConst c => comboNew [c] [c]
      | .storeTrue => boolSelectorNew
      | .storeFalse => boolSelectorNew
      | _ => makeInnerType ctx a.dtype choices
  | .typ t => makeInnerType ctx t choicesParam

/-- The state of `makeWidget(subDataType)` for a fresh list child: the inner
widget for the element type, wrapped with `defaultValue=None`, after the
constructor's `setValue(None)` (which clears a nullable widget and selects
the empty entry of a combo). -/
def freshChild (ctx : Ctx) (sub : DataType) : W × Bool :=
  match makeInner ctx (.typ sub) Option.none with
  | .combo es idx => (.combo es (comboSet es idx PyVal.none), false)
  | w => (innerClearValue w, true)

mutual

/-- The inner widget's `setValue` (a raised exception is `none`): combo
boxes scan for a matching entry; spin boxes clamp (and Python bools pass as
ints); the double spin box also rounds to 4 decimals; line edits and the
file chooser store `str(val)`; the color widget goes through `colorSet`;
the serial chooser delegates to its combo.  On the list widget only list
values are modelled: Python would iterate any iterable (recursing forever
on strings, since a one-character string iterates to itself) and raise
`TypeError` on non-iterables — no claim feeds a non-list to a list
widget. -/
def wSetValue (ctx : Ctx) : W → PyVal → Option W
  | .combo es idx, v => some (.combo es (comboSet es idx v))
  | .spin _ _, .int n => some (.spin (clampI n) false)
  | .spin _ _, .bool b => some (.spin (clampI (if b then 1 else 0)) false)
  | .spin v _, .none => some (.spin v true)
  | .spin _ _, _ => Option.none
  | .dspin _ _, .float q => some (.dspin (clampQ (round4 q)) false)
  | .dspin _ _, .int n => some (.dspin (clampQ (round4 n)) false)
  | .dspin _ _, .bool b =>
      some (.dspin (clampQ (round4 (if b then 1 else 0))) false)
  | .dspin v _, .none => some (.dspin v true)
  | .dspin _ _, _ => Option.none
  | .lineEdit _, v => some (.lineEdit (pyStr v))
  | .colorW a _, v => colorSet a v
  | .fileW _, v => some (.fileW (pyStr v))
  | .serialW es idx, v => some (.serialW es (comboSet es idx v))
  | .listW sub _, .list vs =>
      (kidsFromValues ctx sub vs).map (fun cs => W.listW sub cs)
  | .listW _ _, _ => Option.none

/-- `ListWidget.setValue`: discard all children, then for each value add a
fresh child (`_addKid` calls `makeWidget(subDataType)`) and set its value
through the child wrapper's `ResetableWidget.setValue`. -/
def kidsFromValues (ctx : Ctx) : DataType → List PyVal → Option (List (W × Bool))
  | _, [] => some []
  | sub, v :: vs => do
      let fresh := freshChild ctx sub
      let c ←
        if nullableOf fresh.1 && (v == PyVal.none) then
          some (innerClearValue fresh.1, true)
        else
          (wSetValue ctx fresh.1 v).map (fun w => (w, false))
      let cs ← kidsFromValues ctx sub vs
      pure (c :: cs)

end

mutual

/-- The inner widget's `value()`. -/
def wValue : W → PyVal
  | .combo es idx => comboData es idx
  | .spin v _ => .int v
  | .dspin v _ => .float v
  | .lineEdit t => .str t
  | .colorW _ v => .tuple v
  | .fileW t => .path t
  | .serialW es idx => comboData es idx
  | .listW _ cs => .list (kidsValues cs)

/-- `ListWidget.value`: the children's wrapper values, in order. -/
def kidsValues : List (W × Bool) → List PyVal
  | [] => []
  | c :: cs => childValue c :: kidsValues cs

/-- `ResetableWidget.value` reading an inner state and `nulled` flag:
`None` when nullable and nulled, the inner widget's value otherwise. -/
def childValue : W × Bool → PyVal
  | (w, nulled) => if nullableOf w && nulled then PyVal.none else wValue w

end

/-- `ResetableWidget.setValue` acting on an inner state and `nulled` flag:
`None` on a nullable widget clears the widget and sets the flag; any other
value is forwarded to the widget and the flag is dropped. -/
def childSetValue (ctx : Ctx) (c : W × Bool) (v : PyVal) : Option (W × Bool) :=
  if nullableOf c.1 && (v == PyVal.none) then
    some (innerClearValue c.1, true)
  else
    (wSetValue ctx c.1 v).map (fun w => (w, false))

/-- A `ResetableWidget`: the wrapped inner widget, the `nulled` flag, and
the remembered default value (`nullable` is determined by the inner widget,
see `nullableOf`). -/
structure Wrapped where
  inner : W
  nulled : Bool
  defaultVal : PyVal

/-- `ResetableWidget.setValue`. -/
def Wrapped.setValue (w : Wrapped) (ctx : Ctx) (v : PyVal) : Option Wrapped :=
  (childSetValue ctx (w.inner, w.nulled) v).map (fun c => ⟨c.1, c.2, w.defaultVal⟩)

/-- `ResetableWidget.value`. -/
def Wrapped.value (w : Wrapped) : PyVal :=
  childValue (w.inner, w.nulled)

/-- `ResetableWidget.clearValue` = `setValue(None)`. -/
def Wrapped.clearValue (w : Wrapped) (ctx : Ctx) : Option Wrapped :=
  w.setValue ctx PyVal.none

/-- `makeWidget` (lines 18-81): select the inner widget, wrap it in a
`ResetableWidget` remembering the default (an action's own default
overrides the parameter), and initialize it with `setValue(default)`.  An
ill-typed default raises (`none`).  Tooltips are cosmetic and not
modelled. -/
def makeWidget (ctx : Ctx) (x : ArgOrType) (defaultParam : PyVal)
    (choicesParam : Option (List PyVal)) : Option Wrapped :=
  let d := match x with
    | .action a => a.defaultVal
    | .typ _ => defaultParam
  let inner := makeInner ctx x choicesParam
  (childSetValue ctx (inner, true) d).map (fun c => ⟨c.1, c.2, d⟩)

/-- A wrapped widget faithfully stores `v`: `setValue(v)` succeeds and
`value()` then returns `v`. -/
def wAccepts (ctx : Ctx) (w : Wrapped) (v : PyVal) : Bool :=
  match w.setValue ctx v with
  | some w2 => w2.value == v
  | Option.none => false

/-- The widget classes `makeWidget` can construct. -/
inductive WidgetKind where
  | comboBoxK
  | boolSelectorK
  | spinBoxK
  | doubleSpinBoxK
  | colorWidgetK (hasAlpha : Bool)
  | fileChooserK
  | serialPortChooserK
  | listWidgetK
  | lineEditK
deriving DecidableEq

/-- The class the type-dispatch chain of `makeWidget` instantiates — a
parallel reading of `makeInnerType` recording the constructor run instead
of the produced state. -/
def makeWidgetKindType (ctx : Ctx) (dt : DataType)
    (choices : Option (List PyVal)) : WidgetKind :=
  match choices with
  | some _ => .comboBoxK
  | Option.none =>
      if dt = DataType.intT then .spinBoxK
      else if dt = DataType.floatT then .doubleSpinBoxK
      else if dt = DataType.boolT then .boolSelectorK
      else if dt = DataType.rgbT then .colorWidgetK false
      else if dt = DataType.rgbaT then .colorWidgetK true
      else if dt = DataType.pathT then .fileChooserK
      else if ctx.serialAvailable = true ∧ dt = DataType.serialT then .serialPortChooserK
      else if isListType dt then .listWidgetK
      else .lineEditK

/-- The class `makeWidget` instantiates — a parallel reading of
`makeInner`. -/
def makeWidgetKind (ctx : Ctx) (x : ArgOrType)
    (choicesParam : Option (List PyVal)) : WidgetKind :=
  match x with
  | .action a =>
      let choices := match choicesParam with
        | some cs => some cs
        | Option.none => a.choices
      match a.kind with
      | .storeConst _ => .comboBoxK
      | .storeTrue => .boolSelectorK
      | .storeFalse => .boolSelectorK
      | _ => makeWidgetKindType ctx a.dtype choices
  | .typ t => makeWidgetKindType ctx t choicesParam

/-! ## gui.py -/

/-- One `ArgGroupWidget` panel: its group-list entry text and its form rows
(label = `argument.dest`, field = the wrapped widget). -/
structure GroupPanel where
  name : String
  rows : List (String × Wrapped)

/-- An `ArgparseListWidget`: the orphan group name and the stacked panels
(group-list entries and stacked widgets are always added in pairs, so one
list models both). -/
structure LWState where
  orphanName : String
  panels : List GroupPanel

/-- `ArgGroupWidget.addArguments`: one row per action, labelled by
`argument.dest`, holding `makeWidget(argument)` (a raised exception while
building any widget aborts the loop). -/
def mkRows (ctx : Ctx) : List Action → Option (List (String × Wrapped))
  | [] => some []
  | a :: acts => do
      let w ← makeWidget ctx (.action a) PyVal.none Option.none
      let rows ← mkRows ctx acts
      pure ((a.dest, w) :: rows)

/-- One iteration of the group loop in `ArgparseListWidget.__init__`: a
reserved-titled group reuses the widget at stack index 0 when one exists
(creating the orphan panel otherwise), every other group appends a panel
named after its title. -/
def buildStep (ctx : Ctx) (orphanName : String) (panels : List GroupPanel)
    (gr : ArgGroup × List (String × Action)) : Option (List GroupPanel) := do
  let rows ← mkRows ctx (gr.2.map Prod.snd)
  if gr.1.title ∈ reservedTitles then
    match panels with
    | [] => pure [⟨orphanName, rows⟩]
    | p0 :: rest => pure ({ p0 with rows := p0.rows ++ rows } :: rest)
  else
    pure (panels ++ [⟨gr.1.title, rows⟩])

/-- The group loop of `ArgparseListWidget.__init__`, folding `buildStep`
over the organized groups. -/
def buildPanels (ctx : Ctx) (orphanName : String) :
    List GroupPanel → List (ArgGroup × List (String × Action)) →
    Option (List GroupPanel)
  | panels, [] => some panels
  | panels, gr :: grs => do
      let panels2 ← buildStep ctx orphanName panels gr
      buildPanels ctx orphanName panels2 grs

/-- `ArgparseListWidget.__init__`: organize the parser into groups and run
the group loop. -/
def buildListW (ctx : Ctx) (p : Parser) (orphanName : String) : Option LWState :=
  (buildPanels ctx orphanName [] (organizeIntoGroups p)).map
    (fun ps => ⟨orphanName, ps⟩)

/-- `ArgGroupWidget.setValues`: set each row whose label is a key of the
dict (an exception in any `setValue` aborts the loop). -/
def gSetValues (ctx : Ctx) (vals : List (String × PyVal)) :
    List (String × Wrapped) → Option (List (String × Wrapped))
  | [] => some []
  | r :: rows => do
      let r2 ←
        match dlookup vals r.1 with
        | some v => (r.2.setValue ctx v).map (fun w => (r.1, w))
        | Option.none => some r
      let rest ← gSetValues ctx vals rows
      pure (r2 :: rest)

/-- `ArgGroupWidget.getValues`. -/
def gGetValues (rows : List (String × Wrapped)) : List (String × PyVal) :=
  rows.foldl (fun d r => dinsert d r.1 r.2.value) []

/-- One iteration of the panel loop in `ArgparseListWidget.setValues`: a
panel whose name is a key of the dict receives the nested dict stored under
its name; every other panel receives the whole dict.  (A non-dict value
under a panel name would make the Python code mis-iterate; it is modelled
as an error.) -/
def setPanel (ctx : Ctx) (vals : List (String × PyVal)) (pn : GroupPanel) :
    Option GroupPanel :=
  match dlookup vals pn.name with
  | some (PyVal.dict inner) =>
      (gSetValues ctx inner pn.rows).map (fun rs => GroupPanel.mk pn.name rs)
  | some _ => Option.none
  | Option.none =>
      (gSetValues ctx vals pn.rows).map (fun rs => GroupPanel.mk pn.name rs)

/-- The panel loop of `ArgparseListWidget.setValues`. -/
def setPanels (ctx : Ctx) (vals : List (String × PyVal)) :
    List GroupPanel → Option (List GroupPanel)
  | [] => some []
  | pn :: ps => do
      let pn2 ← setPanel ctx vals pn
      let rest ← setPanels ctx vals ps
      pure (pn2 :: rest)

/-- `ArgparseListWidget.setValues`. -/
def lwSetValues (ctx : Ctx) (s : LWState) (vals : List (String × PyVal)) :
    Option LWState :=
  (setPanels ctx vals s.panels).map (fun ps => ⟨s.orphanName, ps⟩)

/-- `ArgparseListWidget.getValues`: merge the orphan panel's values into the
top-level dict, nest every other panel's values under the panel name. -/
def lwGetValues (s : LWState) : List (String × PyVal) :=
  s.panels.foldl (fun settings pn =>
    if pn.name = s.orphanName then dictMerge settings (gGetValues pn.rows)
    else dinsert settings pn.name (.dict (gGetValues pn.rows))) []

/-- An `ArgDialog` holds one `ArgparseListWidget` built with the default
orphan group name `Main` and delegates `setValues`/`getValues` to it. -/
structure DialogState where
  argparseWidget : LWState

/-- `ArgDialog.__init__` (the value-relevant part). -/
def dialogNew (ctx : Ctx) (p : Parser) : Option DialogState :=
  (buildListW ctx p "Main").map (fun lw => ⟨lw⟩)

/-- `ArgDialog.setValues`, delegating to the list widget. -/
def DialogState.setValues (d : DialogState) (ctx : Ctx)
    (vals : List (String × PyVal)) : Option DialogState :=
  (lwSetValues ctx d.argparseWidget vals).map (fun lw => ⟨lw⟩)

/-- `ArgDialog.getValues`, delegating to the list widget. -/
def DialogState.getValues (d : DialogState) : List (String × PyVal) :=
  lwGetValues d.argparseWidget

/-! ## Well-formedness of parsers and the canonical value dict -/

/-- All non-help actions of a parser, in declaration order. -/
def allNonHelp (p : Parser) : List Action :=
  (p.actionGroups.map nonHelp).flatten

/-- Dests of the ungrouped (reserved-bucket) actions: argparse puts the two
reserved groups first. -/
def ungroupedDests (p : Parser) : List String :=
  ((p.actionGroups.take 2).map (fun g => (nonHelp g).map Action.dest)).flatten

/-- Titles of the user-declared groups. -/
def customTitles (p : Parser) : List String :=
  (p.actionGroups.drop 2).map ArgGroup.title

/-- A real argparse parser shape: `_action_groups` starts with the two
reserved buckets and no user group reuses a reserved title. -/
def wfShape (p : Parser) : Prop :=
  2 ≤ p.actionGroups.length
  ∧ (∀ g ∈ p.actionGroups.take 2, g.title ∈ reservedTitles)
  ∧ (∀ g ∈ p.actionGroups.drop 2, g.title ∉ reservedTitles)

/-- Distinctness conditions for the round trip: top-level keys (ungrouped
dests and group titles) are pairwise distinct, the orphan group name is not
among them, and each user group's dests are distinct. -/
def wfNames (p : Parser) (orphanName : String) : Prop :=
  (ungroupedDests p ++ customTitles p).Nodup
  ∧ orphanName ∉ ungroupedDests p ++ customTitles p
  ∧ ∀ g ∈ p.actionGroups.drop 2, ((nonHelp g).map Action.dest).Nodup

/-- The canonical nested value dict assigning `f a.dest` to every declared
option of `p`: ungrouped dests at the top level, one nested dict per user
group, in declaration order. -/
def mkValues (p : Parser) (f : String → PyVal) : List (String × PyVal) :=
  ((p.actionGroups.take 2).map
      (fun g => (nonHelp g).map (fun a => (a.dest, f a.dest)))).flatten
    ++ (p.actionGroups.drop 2).map (fun g =>
        (g.title, PyVal.dict ((nonHelp g).map (fun a => (a.dest, f a.dest)))))

/-! ## Shared concrete inputs for witnesses and counterexamples -/

/-- An environment without the optional `serial` module. -/
def ctxNone : Ctx := ⟨false, []⟩

/-- The auto-added help action. -/
def actHelp : Action :=
  ⟨"help", DataType.noneType, PyVal.none, Option.none, Option.none, .helpAction⟩

/-- An untyped optional argument. -/
def actName : Action :=
  ⟨"name", DataType.noneType, PyVal.none, Option.none, Option.none, .store⟩

/-- An int argument with a default. -/
def actNum : Action :=
  ⟨"num", DataType.intT, PyVal.int 5, Option.none, Option.none, .store⟩

def grpPos : ArgGroup := ⟨"positional arguments", Option.none, []⟩

def grpOpt : ArgGroup := ⟨"optional arguments", Option.none, [actHelp, actName]⟩

def grpNum : ArgGroup := ⟨"Numbers", some "numeric input", [actNum]⟩

/-- A small but representative parser: the two reserved buckets (one empty,
one holding the help action and an untyped option) plus one user group. -/
def sampleParser : Parser := ⟨some "demo parser", [grpPos, grpOpt, grpNum]⟩

/-- A parsed-namespace assignment for `sampleParser`. -/
def sampleArgs : String → PyVal :=
  fun d => if d = "name" then PyVal.str "Bob" else PyVal.int 7

/-! ## Supporting lemmas: combo boxes and wrappers -/

theorem comboFindIdx_none_of {es : List Entry} {v : PyVal}
    (h : ∀ e ∈ es, e.data ≠ v) : comboFindIdx es v = Option.none := by
  induction es with
  | nil => rfl
  | cons e tl ih =>
    have he : (e.data == v) = false :=
      beq_eq_false_iff_ne.mpr (h e (List.mem_cons_self e tl))
    have ih2 := ih (fun e2 he2 => h e2 (List.mem_cons_of_mem e he2))
    simp only [comboFindIdx] at ih2 ⊢
    simp [List.findIdx?_cons, he, ih2]

theorem comboFindIdx_cons (e : Entry) (tl : List Entry) (v : PyVal) :
    comboFindIdx (e :: tl) v
      = if e.data == v then some 0 else (comboFindIdx tl v).map (· + 1) := by
  simp [comboFindIdx, List.findIdx?_cons]

theorem comboFindIdx_spec {v : PyVal} :
    ∀ {es : List Entry} {i : Nat}, comboFindIdx es v = some i →
    (∃ e, es[i]? = some e ∧ e.data = v)
    ∧ ∀ j, j < i → ∀ e, es[j]? = some e → e.data ≠ v := by
  intro es
  induction es with
  | nil => intro i h; simp [comboFindIdx] at h
  | cons e tl ih =>
    intro i h
    rw [comboFindIdx_cons] at h
    by_cases he : (e.data == v) = true
    · rw [if_pos he] at h
      obtain rfl : (0 : Nat) = i := Option.some_inj.mp h
      exact ⟨⟨e, by simp, eq_of_beq he⟩, fun j hj => absurd hj (by omega)⟩
    · rw [if_neg he] at h
      match hf : comboFindIdx tl v with
      | Option.none => rw [hf] at h; simp at h
      | some i2 =>
        rw [hf] at h
        simp only [Option.map_some'] at h
        obtain rfl : i2 + 1 = i := Option.some_inj.mp h
        obtain ⟨⟨e2, he2, hd2⟩, hlt⟩ := ih hf
        refine ⟨⟨e2, by simpa using he2, hd2⟩, ?_⟩
        intro j hj e3 he3
        match j with
        | 0 =>
          obtain rfl : e = e3 := by simpa using he3
          exact fun hc => he (by simp [hc])
        | j2 + 1 =>
          exact hlt j2 (by omega) e3 (by simpa using he3)

/-- `innerClearValue` never changes the class of the widget, in particular
nullability is preserved. -/
theorem nullableOf_innerClearValue (w : W) :
    nullableOf (innerClearValue w) = nullableOf w := by
  cases w <;> try rfl
  case colorW a v => by_cases ha : a = true <;> simp [innerClearValue, nullableOf, ha]

theorem mem_dinsert {α : Type} {l : List (String × α)} {k : String} {v : α}
    {e : String × α} (h : e ∈ dinsert l k v) : e ∈ l ∨ e = (k, v) := by
  induction l with
  | nil => simpa [dinsert] using h
  | cons hd tl ih =>
    obtain ⟨k0, v0⟩ := hd
    by_cases hk : k0 = k
    · simp only [dinsert, if_pos hk] at h
      rcases List.mem_cons.mp h with h | h
      · exact Or.inr (by rw [h, hk])
      · exact Or.inl (List.mem_cons_of_mem _ h)
    · simp only [dinsert, if_neg hk] at h
      rcases List.mem_cons.mp h with h | h
      · exact Or.inl (h ▸ List.mem_cons_self _ _)
      · rcases ih h with h | h
        · exact Or.inl (List.mem_cons_of_mem _ h)
        · exact Or.inr h

theorem mem_foldl_dinsert {α β : Type} (fa : β → String) (ga : β → α) :
    ∀ (xs : List β) (init : List (String × α)) (e : String × α),
      e ∈ xs.foldl (fun d x => dinsert d (fa x) (ga x)) init →
      e ∈ init ∨ ∃ x ∈ xs, e = (fa x, ga x) := by
  intro xs
  induction xs with
  | nil => intro init e h; exact Or.inl (by simpa using h)
  | cons x tl ih =>
    intro init e h
    simp only [List.foldl_cons] at h
    rcases ih (dinsert init (fa x) (ga x)) e h with h2 | ⟨y, hy, he⟩
    · rcases mem_dinsert h2 with h3 | h3
      · exact Or.inl h3
      · exact Or.inr ⟨x, List.mem_cons_self x tl, h3⟩
    · exact Or.inr ⟨y, List.mem_cons_of_mem x hy, he⟩

/-- Length of a Python string slice. -/
theorem pySlice_length (s : String) (i j : Nat) :
    (pySlice s i j).length = min (j - i) (s.length - i) := by
  show ((s.toList.drop i).take (j - i)).length = _
  rw [List.length_take, List.length_drop, toList_length]

/-! ## Claim C9 -/

/-- **C9** — `ComboBox.setValue` with a value equal to no entry's data makes
no change to the selection (and raises no error: the combo branch of
`wSetValue` always returns a state); with a matching value, the first
matching entry becomes current. -/
theorem claim9_combo_setvalue (ctx : Ctx) (es : List Entry) (idx : Nat) (v : PyVal) :
    (wSetValue ctx (W.combo es idx) v = some (W.combo es (comboSet es idx v)))
    ∧ ((∀ e ∈ es, e.data ≠ v) →
        comboSet es idx v = idx
        ∧ wValue (W.combo es (comboSet es idx v)) = wValue (W.combo es idx))
    ∧ (∀ i, comboFindIdx es v = some i →
        comboSet es idx v = i
        ∧ (∃ e, es[i]? = some e ∧ e.data = v)
        ∧ ∀ j, j < i → ∀ e, es[j]? = some e → e.data ≠ v) := by
  refine ⟨by simp [wSetValue], ?_, ?_⟩
  · intro h
    rw [comboSet, comboFindIdx_none_of h]
    exact ⟨rfl, rfl⟩
  · intro i hi
    obtain ⟨hex, hlt⟩ := comboFindIdx_spec hi
    exact ⟨by simp [comboSet, hi], hex, hlt⟩

theorem claim9_witness :
    ((∀ e ∈ [Entry.mk "" PyVal.none false, Entry.mk "" PyVal.none true,
        Entry.mk "True" (PyVal.bool true) false], e.data ≠ PyVal.int 9)
    ∧ comboSet [Entry.mk "" PyVal.none false, Entry.mk "" PyVal.none true,
        Entry.mk "True" (PyVal.bool true) false] 2 (PyVal.int 9) = 2) :=
  ⟨by decide,
   ((claim9_combo_setvalue ctxNone
      [Entry.mk "" PyVal.none false, Entry.mk "" PyVal.none true,
        Entry.mk "True" (PyVal.bool true) false] 2 (PyVal.int 9)).2.1
      (by decide)).1⟩

/-! ## Claim C10 -/

/-- **C10** — every combo box built by `ComboBox.setOptions` carries an
empty-labelled first entry whose data is `None`, followed by a separator
before the real options; `clearValue` selects that entry (index 0) and
`value()` then returns `None`; yet `ResetableWidget` marks combo-backed
widgets as non-nullable (`nullableOf = false`).  Boolean selectors and
choice widgets are exactly such combos. -/
theorem claim10_combo_none_entry (ctx : Ctx) (vs ls : List PyVal) (idx : Nat)
    (n : Bool) (d : PyVal) :
    (comboSetOptions vs ls)[0]? = some ⟨"", PyVal.none, false⟩
    ∧ (comboSetOptions vs ls)[1]? = some ⟨"", PyVal.none, true⟩
    ∧ (comboSetOptions vs ls).drop 2
        = (vs.zip ls).map (fun vl => ⟨pyStr vl.2, vl.1, false⟩)
    ∧ nullableOf (W.combo (comboSetOptions vs ls) idx) = false
    ∧ (Wrapped.mk (W.combo (comboSetOptions vs ls) idx) n d).clearValue ctx
        = some ⟨W.combo (comboSetOptions vs ls) 0, false, d⟩
    ∧ (Wrapped.mk (W.combo (comboSetOptions vs ls) 0) false d).value = PyVal.none
    ∧ makeInner ctx (.typ DataType.boolT) Option.none
        = W.combo (comboSetOptions [.bool true, .bool false]
            [.str "True", .str "False"]) 0
    ∧ (∀ t cs, makeInnerType ctx t (some cs) = W.combo (comboSetOptions cs cs) 0) := by
  refine ⟨rfl, by simp [comboSetOptions], rfl, rfl, ?_, rfl, rfl, fun _ _ => rfl⟩
  show (childSetValue ctx (W.combo (comboSetOptions vs ls) idx, n)
      PyVal.none).map (fun c => Wrapped.mk c.1 c.2 d) = _
  rw [childSetValue]
  simp only [nullableOf, Bool.false_and, Bool.false_eq_true, if_false]
  simp [wSetValue, comboSet, comboSetOptions, comboFindIdx_cons]

/-! ## Claim C4 -/

/-- **C4** (counterexample) — on a combo-backed wrapped widget (here the
boolean selector `makeWidget` builds for `type=bool`, initially cleared by
its `None` default), `setValue` of a non-`None` value matching no entry
leaves the empty entry selected: `value()` still returns the `None`
sentinel, so "after setValue(v) with v not None the widget is not cleared
and value() returns the stored value" fails for these widgets. -/
theorem claim4_cex :
    ((makeWidget ctxNone (.typ DataType.boolT) PyVal.none Option.none).bind
      (fun w => (w.setValue ctxNone (PyVal.str "x")).map Wrapped.value))
      = some PyVal.none
    ∧ PyVal.str "x" ≠ PyVal.none :=
  ⟨rfl, by decide⟩

/-- **C4** (amended: restricted to widgets `ResetableWidget` marks nullable,
i.e. not backed by a `QComboBox`) — for every nullable wrapped widget state:
a successful `setValue(v)` with `v ≠ None` leaves the wrapper un-nulled with
`value()` returning the inner widget's stored value; `clearValue()` (that
is, `setValue(None)`) nulls the wrapper and `value()` returns the `None`
sentinel, which is distinct from every other `PyVal`. -/
theorem claim4_cleared_state (ctx : Ctx) (w : Wrapped) (v : PyVal)
    (w1 w2 : Wrapped) (hn : nullableOf w.inner = true) :
    (v ≠ PyVal.none → w.setValue ctx v = some w1 →
      w1.nulled = false ∧ w1.value = wValue w1.inner)
    ∧ (w.clearValue ctx = some w2 → w2.nulled = true ∧ w2.value = PyVal.none)
    ∧ (∀ b nn q st pt xs ys es,
        PyVal.none ≠ PyVal.bool b ∧ PyVal.none ≠ PyVal.int nn
        ∧ PyVal.none ≠ PyVal.float q ∧ PyVal.none ≠ PyVal.str st
        ∧ PyVal.none ≠ PyVal.path pt ∧ PyVal.none ≠ PyVal.tuple xs
        ∧ PyVal.none ≠ PyVal.list ys ∧ PyVal.none ≠ PyVal.dict es) := by
  refine ⟨?_, ?_, ?_⟩
  · intro hv hset
    have hbeq : (v == PyVal.none) = false := beq_eq_false_iff_ne.mpr hv
    rw [Wrapped.setValue, childSetValue] at hset
    simp only [hbeq, Bool.and_false, Bool.false_eq_true, if_false] at hset
    match hw : wSetValue ctx w.inner v with
    | Option.none => rw [hw] at hset; simp at hset
    | some wi =>
      rw [hw] at hset
      simp only [Option.map_some'] at hset
      obtain rfl : (⟨wi, false, w.defaultVal⟩ : Wrapped) = w1 :=
        Option.some_inj.mp hset
      exact ⟨rfl, by simp [Wrapped.value, childValue]⟩
  · intro hset
    rw [Wrapped.clearValue, Wrapped.setValue, childSetValue] at hset
    have hcond : (nullableOf (w.inner, w.nulled).1
        && (PyVal.none == PyVal.none)) = true := by
      simp [hn]
    rw [if_pos hcond] at hset
    simp only [Option.map_some'] at hset
    obtain rfl : (⟨innerClearValue w.inner, true, w.defaultVal⟩ : Wrapped) = w2 :=
      Option.some_inj.mp hset
    refine ⟨rfl, ?_⟩
    simp [Wrapped.value, childValue, nullableOf_innerClearValue, hn]
  · intro b nn q st pt xs ys es
    refine ⟨?_, ?_, ?_, ?_, ?_, ?_, ?_, ?_⟩ <;> intro h <;> exact PyVal.noConfusion h

theorem claim4_witness :
    ((PyVal.str "a" ≠ PyVal.none)
    ∧ (Wrapped.mk (W.lineEdit "") true PyVal.none).setValue ctxNone (PyVal.str "a")
        = some (Wrapped.mk (W.lineEdit "a") false PyVal.none)
    ∧ (Wrapped.mk (W.lineEdit "a") false PyVal.none).nulled = false
    ∧ (Wrapped.mk (W.lineEdit "a") false PyVal.none).value
        = wValue (W.lineEdit "a")
    ∧ (Wrapped.mk (W.lineEdit "") true PyVal.none).clearValue ctxNone
        = some (Wrapped.mk (W.lineEdit "") true PyVal.none)
    ∧ (Wrapped.mk (W.lineEdit "") true PyVal.none).value = PyVal.none) := by
  have h := claim4_cleared_state ctxNone ⟨W.lineEdit "", true, PyVal.none⟩
    (PyVal.str "a") ⟨W.lineEdit "a", false, PyVal.none⟩
    ⟨W.lineEdit "", true, PyVal.none⟩ rfl
  have h1 := h.1 (by decide) rfl
  have h2 := h.2.1 rfl
  exact ⟨by decide, rfl, h1.1, h1.2, rfl, h2.2⟩

/-! ## Claim C5 -/

/-- A store action with declared type `bool` and a declared choice list. -/
def actBoolChoices : Action :=
  ⟨"flag", DataType.boolT, PyVal.none, some [PyVal.bool true],
    Option.none, .store⟩

/-- **C5** (counterexample) — the claim ranks `bool` type with
`store_true`/`store_false` (before declared choices), but the code checks
`choices` first: an action of type `bool` with declared choices gets a
plain combo box, not a boolean selector. -/
theorem claim5_cex :
    makeWidgetKind ctxNone (.action actBoolChoices) Option.none
      = WidgetKind.comboBoxK
    ∧ WidgetKind.comboBoxK ≠ WidgetKind.boolSelectorK
    ∧ actBoolChoices.dtype = DataType.boolT
    ∧ actBoolChoices.choices ≠ Option.none :=
  ⟨rfl, by decide, rfl, by decide⟩

/-- **C5** (amended: the `bool` type is dispatched after `choices`, between
`float` and `rgb`) — the dispatch priority of `makeWidget`: `store_const`
gets a single-choice combo box; `store_true`/`store_false` get a boolean
selector; any declared choices (the explicit parameter, or the action's own)
get a combo box; then by declared type: `int` a spin box, `float` a double
spin box, `bool` a boolean selector, `rgb`/`rgba` a color widget,
`pathlib.Path` a file chooser, `Serial` (only when the serial module is
available) a serial-port chooser, list types a list widget, and everything
else (strings, no declared type, unknown callables, `Serial` without the
module) a line edit. -/
theorem claim5_type_dispatch (ctx : Ctx) (a : Action)
    (cp : Option (List PyVal)) (dt : DataType) :
    (∀ c, a.kind = .storeConst c →
      makeWidgetKind ctx (.action a) cp = WidgetKind.comboBoxK)
    ∧ (a.kind = .storeTrue →
      makeWidgetKind ctx (.action a) cp = WidgetKind.boolSelectorK)
    ∧ (a.kind = .storeFalse →
      makeWidgetKind ctx (.action a) cp = WidgetKind.boolSelectorK)
    ∧ (a.kind = .store → cp = Option.none →
      makeWidgetKind ctx (.action a) cp = makeWidgetKindType ctx a.dtype a.choices)
    ∧ (makeWidgetKind ctx (.typ dt) cp = makeWidgetKindType ctx dt cp)
    ∧ (∀ cs, makeWidgetKindType ctx dt (some cs) = WidgetKind.comboBoxK)
    ∧ (makeWidgetKindType ctx DataType.intT Option.none = WidgetKind.spinBoxK)
    ∧ (makeWidgetKindType ctx DataType.floatT Option.none = WidgetKind.doubleSpinBoxK)
    ∧ (makeWidgetKindType ctx DataType.boolT Option.none = WidgetKind.boolSelectorK)
    ∧ (makeWidgetKindType ctx DataType.rgbT Option.none = WidgetKind.colorWidgetK false)
    ∧ (makeWidgetKindType ctx DataType.rgbaT Option.none = WidgetKind.colorWidgetK true)
    ∧ (makeWidgetKindType ctx DataType.pathT Option.none = WidgetKind.fileChooserK)
    ∧ (ctx.serialAvailable = true →
      makeWidgetKindType ctx DataType.serialT Option.none = WidgetKind.serialPortChooserK)
    ∧ (ctx.serialAvailable = false →
      makeWidgetKindType ctx DataType.serialT Option.none = WidgetKind.lineEditK)
    ∧ (isListType dt = true →
      makeWidgetKindType ctx dt Option.none = WidgetKind.listWidgetK)
    ∧ (makeWidgetKindType ctx DataType.strT Option.none = WidgetKind.lineEditK)
    ∧ (makeWidgetKindType ctx DataType.noneType Option.none = WidgetKind.lineEditK)
    ∧ (∀ nm, makeWidgetKindType ctx (DataType.customT nm) Option.none
        = WidgetKind.lineEditK) := by
  refine ⟨?_, ?_, ?_, ?_, rfl, fun cs => rfl, rfl, ?_, ?_, ?_, ?_, ?_, ?_, ?_, ?_,
    ?_, ?_, ?_⟩
  · intro c hc
    simp [makeWidgetKind, hc]
  · intro hc; simp [makeWidgetKind, hc]
  · intro hc; simp [makeWidgetKind, hc]
  · intro hc hcp; simp [makeWidgetKind, hc, hcp]
  · simp [makeWidgetKindType]
  · simp [makeWidgetKindType]
  · simp [makeWidgetKindType]
  · simp [makeWidgetKindType]
  · simp [makeWidgetKindType]
  · intro hs; simp [makeWidgetKindType, hs]
  · intro hs; simp [makeWidgetKindType, hs, isListType]
  · intro hl
    cases dt <;> simp [isListType] at hl <;> simp [makeWidgetKindType, isListType]
  · simp [makeWidgetKindType, isListType]
  · simp [makeWidgetKindType, isListType]
  · intro nm; simp [makeWidgetKindType, isListType]

theorem claim5_witness :
    ((Action.mk "v" DataType.noneType PyVal.none Option.none Option.none
        ActionKind.storeTrue).kind = ActionKind.storeTrue)
    ∧ makeWidgetKind ctxNone
        (.action (Action.mk "v" DataType.noneType PyVal.none Option.none
          Option.none ActionKind.storeTrue)) Option.none
        = WidgetKind.boolSelectorK :=
  ⟨rfl,
   (claim5_type_dispatch ctxNone
      (Action.mk "v" DataType.noneType PyVal.none Option.none Option.none
        ActionKind.storeTrue) Option.none DataType.intT).2.1 rfl⟩

/-! ## Claim C6 -/

/-- **C7** — the grouping functions only read the parser: in
state-transformer form both return the parser unchanged, and every
action value stored in `organizeIntoGroups`' result is one of the parser's
own action objects (all fields equal), listed under its own group. -/
theorem claim7_frame (p : Parser) (args : String → PyVal) :
    (organizeIntoGroupsST p).2 = p
    ∧ (parseIntoGroupsST p args).2 = p
    ∧ (∀ gi ∈ organizeIntoGroups p, gi.1 ∈ p.actionGroups
        ∧ ∀ e ∈ gi.2, e.2 ∈ gi.1.groupActions) := by
  refine ⟨rfl, rfl, ?_⟩
  intro gi hgi
  rw [organizeIntoGroups] at hgi
  obtain ⟨g, hg, rfl⟩ := List.mem_map.mp hgi
  refine ⟨hg, ?_⟩
  intro e he
  simp only [innerDict] at he
  rcases mem_foldl_dinsert Action.dest (fun a => a) (nonHelp g) [] e he with
    h | ⟨x, hx, rfl⟩
  · cases h
  · exact List.mem_of_mem_filter hx

theorem claim7_witness :
    (organizeIntoGroupsST sampleParser).2 = sampleParser
    ∧ (grpNum, innerDict grpNum).1 ∈ sampleParser.actionGroups := by
  have h := claim7_frame sampleParser sampleArgs
  refine ⟨h.1, (h.2.2 (grpNum, innerDict grpNum) ?_).1⟩
  show (grpNum, innerDict grpNum) ∈ organizeIntoGroups sampleParser
  exact List.mem_cons_of_mem _ (List.mem_cons_of_mem _ (List.mem_cons_self _ _))

/-! ## Claim C8 -/

/-- **C8** (counterexample) — `"-f0000"` is not made of hex digits (so the
claim says `rgb` must raise), yet `rgb` accepts it — Python `int("-f", 16)`
parses a sign — and returns a component outside `[0, 255]`. -/
theorem claim8_cex :
    rgb "-f0000" = Except.ok (-15, 0, 0)
    ∧ isHexString "-f0000" = false
    ∧ ((-15 : Int) < 0) :=
  ⟨rfl, rfl, by decide⟩

/-- **C8** (amended) — `rgb` raises exactly when the input's length is not 6
or one of its three 2-character slices is rejected by Python `int(-, 16)`
(which strips whitespace and accepts one leading sign, so plain
hex-digit-hood is not required); on success the components lie in
`[-15, 255]` (two hex digits give `[0, 255]`; a sign or stripped blank
leaves a single digit, giving `[-15, 15]`).  `rgba` behaves the same with
length 8 and four components. -/
theorem claim8_rgb_rgba (s : String) :
    ((rgb s).isOk = true ↔
      (s.length = 6 ∧ (pyIntHex (pySlice s 0 2)).isSome = true
        ∧ (pyIntHex (pySlice s 2 4)).isSome = true
        ∧ (pyIntHex (pySlice s 4 6)).isSome = true))
    ∧ (∀ r g b : Int, rgb s = .ok (r, g, b) →
        (-15 ≤ r ∧ r ≤ 255) ∧ (-15 ≤ g ∧ g ≤ 255) ∧ (-15 ≤ b ∧ b ≤ 255))
    ∧ ((rgba s).isOk = true ↔
      (s.length = 8 ∧ (pyIntHex (pySlice s 0 2)).isSome = true
        ∧ (pyIntHex (pySlice s 2 4)).isSome = true
        ∧ (pyIntHex (pySlice s 4 6)).isSome = true
        ∧ (pyIntHex (pySlice s 6 8)).isSome = true))
    ∧ (∀ r g b a : Int, rgba s = .ok (r, g, b, a) →
        (-15 ≤ r ∧ r ≤ 255) ∧ (-15 ≤ g ∧ g ≤ 255) ∧ (-15 ≤ b ∧ b ≤ 255)
          ∧ (-15 ≤ a ∧ a ≤ 255)) := by
  refine ⟨?_, ?_, ?_, ?_⟩
  · by_cases hlen : s.length = 6
    · rcases e1 : pyIntHex (pySlice s 0 2) with _ | r1 <;>
        rcases e2 : pyIntHex (pySlice s 2 4) with _ | g1 <;>
        rcases e3 : pyIntHex (pySlice s 4 6) with _ | b1 <;>
        simp [rgb, hlen, e1, e2, e3, Except.isOk, Except.toBool]
    · simp [rgb, hlen, Except.isOk, Except.toBool]
  · intro r g b hok
    by_cases hlen : s.length = 6
    · rcases e1 : pyIntHex (pySlice s 0 2) with _ | r1 <;>
        rcases e2 : pyIntHex (pySlice s 2 4) with _ | g1 <;>
        rcases e3 : pyIntHex (pySlice s 4 6) with _ | b1 <;>
        simp [rgb, hlen, e1, e2, e3] at hok
      obtain ⟨hr, hg, hb⟩ := hok
      subst hr; subst hg; subst hb
      have l1 : (pySlice s 0 2).length = 2 := by simp [pySlice_length, hlen]
      have l2 : (pySlice s 2 4).length = 2 := by simp [pySlice_length, hlen]
      have l3 : (pySlice s 4 6).length = 2 := by simp [pySlice_length, hlen]
      exact ⟨pyIntHex_bounds e1 l1, pyIntHex_bounds e2 l2, pyIntHex_bounds e3 l3⟩
    · simp [rgb, hlen] at hok
  · by_cases hlen : s.length = 8
    · rcases e1 : pyIntHex (pySlice s 0 2) with _ | r1 <;>
        rcases e2 : pyIntHex (pySlice s 2 4) with _ | g1 <;>
        rcases e3 : pyIntHex (pySlice s 4 6) with _ | b1 <;>
        rcases e4 : pyIntHex (pySlice s 6 8) with _ | a1 <;>
        simp [rgba, hlen, e1, e2, e3, e4, Except.isOk, Except.toBool]
    · simp [rgba, hlen, Except.isOk, Except.toBool]
  · intro r g b a hok
    by_cases hlen : s.length = 8
    · rcases e1 : pyIntHex (pySlice s 0 2) with _ | r1 <;>
        rcases e2 : pyIntHex (pySlice s 2 4) with _ | g1 <;>
        rcases e3 : pyIntHex (pySlice s 4 6) with _ | b1 <;>
        rcases e4 : pyIntHex (pySlice s 6 8) with _ | a1 <;>
        simp [rgba, hlen, e1, e2, e3, e4] at hok
      obtain ⟨hr, hg, hb, ha⟩ := hok
      subst hr; subst hg; subst hb; subst ha
      have l1 : (pySlice s 0 2).length = 2 := by simp [pySlice_length, hlen]
      have l2 : (pySlice s 2 4).length = 2 := by simp [pySlice_length, hlen]
      have l3 : (pySlice s 4 6).length = 2 := by simp [pySlice_length, hlen]
      have l4 : (pySlice s 6 8).length = 2 := by simp [pySlice_length, hlen]
      exact ⟨pyIntHex_bounds e1 l1, pyIntHex_bounds e2 l2,
        pyIntHex_bounds e3 l3, pyIntHex_bounds e4 l4⟩
    · simp [rgba, hlen] at hok

theorem claim8_witness :
    rgb "0aFF10" = Except.ok (10, 255, 16)
    ∧ ((-15 : Int) ≤ 10 ∧ (10 : Int) ≤ 255)
    ∧ ((-15 : Int) ≤ 255 ∧ (255 : Int) ≤ 255)
    ∧ ((-15 : Int) ≤ 16 ∧ (16 : Int) ≤ 255) := by
  have hok : rgb "0aFF10" = Except.ok (10, 255, 16) := rfl
  have h := (claim8_rgb_rgba "0aFF10").2.1 10 255 16 hok
  exact ⟨hok, h.1, h.2.1, h.2.2⟩

/-! ## Claims C2 and C3 -/

theorem dkeys_append {α : Type} (a b : List (String × α)) :
    dkeys (a ++ b) = dkeys a ++ dkeys b := by simp [dkeys]

theorem dkeys_flatten_groupEntries (args : String → PyVal) (gs : List ArgGroup) :
    dkeys ((gs.map (groupEntries args)).flatten) = (gs.map groupKeys).flatten := by
  induction gs with
  | nil => rfl
  | cons g tl ih =>
    simp only [List.map_cons, List.flatten_cons]
    rw [dkeys_append, dkeys_groupEntries, ih]

theorem nodup_flatten_mem {α : Type} {L : List (List α)} (h : L.flatten.Nodup)
    {l : List α} (hl : l ∈ L) : l.Nodup :=
  List.Nodup.sublist (List.sublist_flatten_of_mem hl) h

theorem mem_of_getElem_opt {α : Type} (l : List α) (i : Nat) (a : α)
    (h : l[i]? = some a) : a ∈ l := by
  obtain ⟨hi, he⟩ := List.getElem?_eq_some.mp h
  exact he ▸ List.getElem_mem hi

/-- **C2** — `parseIntoGroups` stores the parsed value of every argument of
the two reserved buckets directly in the top-level dict, and the values of
each other group in a nested dict keyed by that group's title (with each
group's dest mapped to its parsed value), provided top-level keys and
per-group dests are distinct. -/
theorem claim2_parse_into_groups (p : Parser) (args : String → PyVal)
    (hnd : (topKeys p).Nodup)
    (hinner : ∀ g ∈ p.actionGroups, g.title ∉ reservedTitles →
      ((nonHelp g).map Action.dest).Nodup) :
    (∀ g ∈ p.actionGroups, g.title ∈ reservedTitles → ∀ a ∈ nonHelp g,
        dlookup (parseIntoGroups p args) a.dest = some (args a.dest))
    ∧ (∀ g ∈ p.actionGroups, g.title ∉ reservedTitles →
        dlookup (parseIntoGroups p args) g.title
          = some (.dict ((nonHelp g).map (fun a => (a.dest, args a.dest))))) := by
  have hndf : ((p.actionGroups.map groupKeys).flatten).Nodup := by
    rwa [topKeys] at hnd
  have hshape : parseIntoGroups p args
      = (p.actionGroups.map (groupEntries args)).flatten := by
    rw [parseIntoGroups,
      parseIntoGroups_shape args p.actionGroups [] hndf
        (by intro k _ hc; simp [dkeys] at hc)]
    simp
  have hmain : ∀ g ∈ p.actionGroups, ∀ k ∈ groupKeys g,
      dlookup (parseIntoGroups p args) k = dlookup (groupEntries args g) k := by
    intro g hg k hk
    obtain ⟨l1, l2, hsplit⟩ := List.append_of_mem hg
    rw [hshape, hsplit, List.map_append, List.map_cons, List.flatten_append,
      List.flatten_cons]
    have hnd2 : ((l1.map groupKeys).flatten
        ++ (groupKeys g ++ (l2.map groupKeys).flatten)).Nodup := by
      rw [hsplit, List.map_append, List.map_cons, List.flatten_append,
        List.flatten_cons] at hndf
      exact hndf
    rw [dlookup_append_right]
    · exact dlookup_append_mem _ (by rw [dkeys_groupEntries]; exact hk)
    · rw [dkeys_flatten_groupEntries]
      intro hc
      exact (List.nodup_append.mp hnd2).2.2 hc (List.mem_append_left _ hk)
  constructor
  · intro g hg hres a ha
    have hk : a.dest ∈ groupKeys g := by
      rw [groupKeys, if_pos hres]
      exact List.mem_map_of_mem _ ha
    have hgk : (groupKeys g).Nodup :=
      nodup_flatten_mem hndf (List.mem_map_of_mem groupKeys hg)
    rw [groupKeys, if_pos hres] at hgk
    rw [hmain g hg a.dest hk, groupEntries, if_pos hres]
    exact dlookup_map_eq Action.dest (fun a => args a.dest) (nonHelp g) a ha hgk
  · intro g hg hres
    have hk : g.title ∈ groupKeys g := by
      rw [groupKeys, if_neg hres]
      exact List.mem_singleton_self _
    rw [hmain g hg g.title hk, groupEntries, if_neg hres,
      innerValues_eq_map args g (hinner g hg hres)]
    simp [dlookup]

theorem claim2_witness :
    dlookup (parseIntoGroups sampleParser sampleArgs) "name"
      = some (sampleArgs "name")
    ∧ dlookup (parseIntoGroups sampleParser sampleArgs) "Numbers"
      = some (.dict [("num", sampleArgs "num")]) := by
  have h := claim2_parse_into_groups sampleParser sampleArgs (by decide) (by decide)
  exact ⟨h.1 grpOpt (by decide) (by decide) actName (by decide),
    h.2 grpNum (by decide) (by decide)⟩

/-- **C3** — `organizeIntoGroups` keys its result by the parser's groups in
order; every stored entry is a non-help action keyed by its dest; every
non-help action of a group is found under exactly that group (at its own
dest), and under no other group's dict; help actions are never stored. -/
theorem claim3_organize_partition (p : Parser)
    (hnd : ((p.actionGroups.map
        (fun g => (nonHelp g).map Action.dest)).flatten).Nodup) :
    ((organizeIntoGroups p).map Prod.fst = p.actionGroups)
    ∧ (∀ gi ∈ organizeIntoGroups p, ∀ e ∈ gi.2,
        isHelpAction e.2 = false ∧ e.1 = e.2.dest)
    ∧ (∀ (i : Nat) (g : ArgGroup), p.actionGroups[i]? = some g → ∀ a ∈ nonHelp g,
        ((organizeIntoGroups p)[i]?).map
          (fun gi : ArgGroup × List (String × Action) => dlookup gi.2 a.dest)
          = some (some a)
        ∧ ∀ (j : Nat) (gj : ArgGroup), p.actionGroups[j]? = some gj → j ≠ i →
            dlookup (innerDict gj) a.dest = Option.none) := by
  refine ⟨?_, ?_, ?_⟩
  · rw [organizeIntoGroups, List.map_map]
    exact List.map_id' p.actionGroups
  · intro gi hgi e he
    rw [organizeIntoGroups] at hgi
    obtain ⟨g, _, rfl⟩ := List.mem_map.mp hgi
    simp only [innerDict] at he
    rcases mem_foldl_dinsert Action.dest (fun a => a) (nonHelp g) [] e he with
      h | ⟨x, hx, rfl⟩
    · cases h
    · have := List.of_mem_filter hx
      exact ⟨by simpa using this, rfl⟩
  · intro i g hig a ha
    have hgm : g ∈ p.actionGroups := mem_of_getElem_opt p.actionGroups i g hig
    have hgnd : ((nonHelp g).map Action.dest).Nodup :=
      nodup_flatten_mem hnd
        (List.mem_map_of_mem (fun g => (nonHelp g).map Action.dest) hgm)
    constructor
    · rw [organizeIntoGroups, List.getElem?_map, hig]
      simp only [Option.map_some']
      rw [innerDict_eq_map g hgnd,
        dlookup_map_eq Action.dest (fun a => a) (nonHelp g) a ha hgnd]
    · intro j gj hjg hne
      have hgjm : gj ∈ p.actionGroups := mem_of_getElem_opt p.actionGroups j gj hjg
      have hgjnd : ((nonHelp gj).map Action.dest).Nodup :=
        nodup_flatten_mem hnd
          (List.mem_map_of_mem (fun g => (nonHelp g).map Action.dest) hgjm)
      have hpair := (List.nodup_flatten.mp hnd).2
      have hdmem : a.dest ∈ (nonHelp g).map Action.dest :=
        List.mem_map_of_mem Action.dest ha
      have hnotin : a.dest ∉ (nonHelp gj).map Action.dest := by
        obtain ⟨hi, hie⟩ := List.getElem?_eq_some.mp hig
        obtain ⟨hj, hje⟩ := List.getElem?_eq_some.mp hjg
        have hLlen : (p.actionGroups.map
            (fun g => (nonHelp g).map Action.dest)).length
            = p.actionGroups.length := by simp
        rcases Nat.lt_or_ge j i with hji | hij
        · have hdisj := List.pairwise_iff_getElem.mp hpair j i
            (by omega) (by omega) hji
          simp only [List.getElem_map] at hdisj
          rw [hie, hje] at hdisj
          exact fun hc => hdisj hc hdmem
        · have hij2 : i < j := by omega
          have hdisj := List.pairwise_iff_getElem.mp hpair i j
            (by omega) (by omega) hij2
          simp only [List.getElem_map] at hdisj
          rw [hie, hje] at hdisj
          exact fun hc => hdisj hdmem hc
      rw [innerDict_eq_map gj hgjnd]
      apply dlookup_notmem
      intro hc
      apply hnotin
      have : dkeys ((nonHelp gj).map (fun a => (a.dest, a)))
          = (nonHelp gj).map Action.dest := by
        simp [dkeys, List.map_map]
      rwa [this] at hc

theorem claim3_witness :
    ((organizeIntoGroups sampleParser)[1]?).map
        (fun gi : ArgGroup × List (String × Action) => dlookup gi.2 actName.dest)
        = some (some actName)
    ∧ dlookup (innerDict grpNum) actName.dest = Option.none := by
  have h := (claim3_organize_partition sampleParser (by decide)).2.2 1 grpOpt
    (by decide) actName (by decide)
  exact ⟨h.1, h.2 2 grpNum (by decide) (by decide)⟩

/-! ## Claim C1: supporting lemmas -/

theorem forall₂_imp_mem {α β : Type} {R S : α → β → Prop} :
    ∀ {xs : List α} {ys : List β}, List.Forall₂ R xs ys →
      (∀ x ∈ xs, ∀ y, R x y → S x y) → List.Forall₂ S xs ys := by
  intro xs ys h
  induction h with
  | nil => intro _; exact List.Forall₂.nil
  | cons hr htl ih =>
    intro himp
    exact List.Forall₂.cons (himp _ (List.mem_cons_self _ _) _ hr)
      (ih (fun x hx y hry => himp x (List.mem_cons_of_mem _ hx) y hry))

theorem forall₂_map_eq {α β γ : Type} {R : α → β → Prop} :
    ∀ {xs : List α} {ys : List β}, List.Forall₂ R xs ys →
    ∀ (h : α → γ) (k : β → γ), (∀ x ∈ xs, ∀ y, R x y → k y = h x) →
    ys.map k = xs.map h := by
  intro xs ys hf
  induction hf with
  | nil => intro h k _; rfl
  | cons hr htl ih =>
    intro h k hcomp
    simp only [List.map_cons]
    rw [hcomp _ (List.mem_cons_self _ _) _ hr,
      ih h k (fun x hx y hry => hcomp x (List.mem_cons_of_mem _ hx) y hry)]

theorem innerDict_values (g : ArgGroup)
    (hnd : ((nonHelp g).map Action.dest).Nodup) :
    (innerDict g).map Prod.snd = nonHelp g := by
  rw [innerDict_eq_map g hnd, List.map_map]
  exact List.map_id' _

theorem gGetValues_eq (rows : List (String × Wrapped))
    (hnd : (rows.map Prod.fst).Nodup) :
    gGetValues rows = rows.map (fun r => (r.1, r.2.value)) := by
  rw [gGetValues,
    foldl_dinsert_eq_append Prod.fst (fun r => r.2.value) rows [] hnd
      (by intro x _ hc; simp [dkeys] at hc)]
  simp

theorem dictMerge_nil {α : Type} (b : List (String × α))
    (hnd : (b.map Prod.fst).Nodup) : dictMerge [] b = b := by
  rw [dictMerge,
    foldl_dinsert_eq_append Prod.fst Prod.snd b [] hnd
      (by intro x _ hc; simp [dkeys] at hc)]
  simp

theorem mkRows_append (ctx : Ctx) :
    ∀ (l1 l2 : List Action) (rows1 rows2 : List (String × Wrapped)),
      mkRows ctx l1 = some rows1 → mkRows ctx l2 = some rows2 →
      mkRows ctx (l1 ++ l2) = some (rows1 ++ rows2) := by
  intro l1
  induction l1 with
  | nil =>
    intro l2 rows1 rows2 h1 h2
    obtain rfl : [] = rows1 := Option.some_inj.mp h1
    simpa using h2
  | cons a tl ih =>
    intro l2 rows1 rows2 h1 h2
    rw [mkRows] at h1
    cases hw : makeWidget ctx (.action a) PyVal.none Option.none with
    | none => rw [hw] at h1; exact Option.noConfusion h1
    | some w =>
      rw [hw] at h1
      cases hr : mkRows ctx tl with
      | none => rw [hr] at h1; exact Option.noConfusion h1
      | some rs =>
        rw [hr] at h1
        obtain rfl : (a.dest, w) :: rs = rows1 := Option.some_inj.mp h1
        rw [List.cons_append, mkRows, hw, ih l2 rs rows2 hr h2]
        rfl

/-- The per-panel pipeline: building rows for a list of actions and then
running `ArgGroupWidget.setValues` with a dict that assigns an accepted
value to every dest gives rows whose labels are the dests and whose widget
values are the assigned values. -/
theorem panel_pipeline (ctx : Ctx) (f : String → PyVal) :
    ∀ (acts : List Action) (rows : List (String × Wrapped))
      (vals : List (String × PyVal)),
      mkRows ctx acts = some rows →
      (∀ a ∈ acts, dlookup vals a.dest = some (f a.dest)) →
      (∀ a ∈ acts, ∀ w, makeWidget ctx (.action a) PyVal.none Option.none = some w →
        wAccepts ctx w (f a.dest) = true) →
      ∃ rows2, gSetValues ctx vals rows = some rows2
        ∧ rows2.map Prod.fst = acts.map Action.dest
        ∧ rows2.map (fun r => (r.1, r.2.value))
            = acts.map (fun a => (a.dest, f a.dest)) := by
  intro acts
  induction acts with
  | nil =>
    intro rows vals hmk _ _
    obtain rfl : [] = rows := Option.some_inj.mp hmk
    exact ⟨[], rfl, rfl, rfl⟩
  | cons a tl ih =>
    intro rows vals hmk hlook hacc
    rw [mkRows] at hmk
    cases hw : makeWidget ctx (.action a) PyVal.none Option.none with
    | none => rw [hw] at hmk; exact Option.noConfusion hmk
    | some w =>
      rw [hw] at hmk
      cases hr : mkRows ctx tl with
      | none => rw [hr] at hmk; exact Option.noConfusion hmk
      | some rs =>
        rw [hr] at hmk
        obtain rfl : (a.dest, w) :: rs = rows := Option.some_inj.mp hmk
        have haccw := hacc a (List.mem_cons_self _ _) w hw
        rw [wAccepts] at haccw
        cases hs : w.setValue ctx (f a.dest) with
        | none => rw [hs] at haccw; exact Bool.noConfusion haccw
        | some w2 =>
          rw [hs] at haccw
          have hval : w2.value = f a.dest := eq_of_beq haccw
          obtain ⟨rs2, hset2, hfst2, hval2⟩ := ih rs vals hr
            (fun x hx => hlook x (List.mem_cons_of_mem _ hx))
            (fun x hx => hacc x (List.mem_cons_of_mem _ hx))
          refine ⟨(a.dest, w2) :: rs2, ?_, ?_, ?_⟩
          · simp [gSetValues, hlook a (List.mem_cons_self _ _), hs, hset2]
          · simp [hfst2]
          · simp [hval, hval2]

/-- The group loop of `ArgparseListWidget.__init__` over the user groups:
each appends a panel named after its title. -/
theorem buildPanels_custom (ctx : Ctx) (o : String) :
    ∀ (gs : List ArgGroup) (acc ps : List GroupPanel),
      (∀ g ∈ gs, g.title ∉ reservedTitles) →
      buildPanels ctx o acc (gs.map (fun g => (g, innerDict g))) = some ps →
      ∃ extra, ps = acc ++ extra
        ∧ List.Forall₂ (fun g pn => pn.name = g.title
            ∧ mkRows ctx ((innerDict g).map Prod.snd) = some pn.rows) gs extra := by
  intro gs
  induction gs with
  | nil =>
    intro acc ps _ hf
    obtain rfl : acc = ps := Option.some_inj.mp hf
    exact ⟨[], by simp, List.Forall₂.nil⟩
  | cons g tl ih =>
    intro acc ps hres hf
    rw [List.map_cons, buildPanels, buildStep] at hf
    simp only [eq_false (hres g (List.mem_cons_self _ _)), if_false] at hf
    cases hrows : mkRows ctx ((innerDict g).map Prod.snd) with
    | none => rw [hrows] at hf; exact Option.noConfusion hf
    | some rows =>
      rw [hrows] at hf
      have hf2 : buildPanels ctx o (acc ++ [⟨g.title, rows⟩])
          (tl.map (fun g => (g, innerDict g))) = some ps := hf
      obtain ⟨extra, hps, hfa⟩ := ih (acc ++ [⟨g.title, rows⟩]) ps
        (fun g2 hg2 => hres g2 (List.mem_cons_of_mem _ hg2)) hf2
      exact ⟨⟨g.title, rows⟩ :: extra, by rw [hps]; simp,
        List.Forall₂.cons ⟨rfl, hrows⟩ hfa⟩

/-- The panel loop of `ArgparseListWidget.setValues` over the user-group
panels, with a top-level dict holding each title's nested dict. -/
theorem setPanels_custom (ctx : Ctx) (f : String → PyVal)
    (vals : List (String × PyVal)) :
    ∀ (gs : List ArgGroup) (extra : List GroupPanel),
      List.Forall₂ (fun g pn => pn.name = g.title
        ∧ mkRows ctx (nonHelp g) = some pn.rows) gs extra →
      (∀ g ∈ gs, dlookup vals g.title
        = some (.dict ((nonHelp g).map (fun a => (a.dest, f a.dest))))) →
      (∀ g ∈ gs, ((nonHelp g).map Action.dest).Nodup) →
      (∀ g ∈ gs, ∀ a ∈ nonHelp g, ∀ w,
        makeWidget ctx (.action a) PyVal.none Option.none = some w →
        wAccepts ctx w (f a.dest) = true) →
      ∃ extra2, setPanels ctx vals extra = some extra2
        ∧ List.Forall₂ (fun g pn2 => pn2.name = g.title
            ∧ pn2.rows.map Prod.fst = (nonHelp g).map Action.dest
            ∧ pn2.rows.map (fun r => (r.1, r.2.value))
                = (nonHelp g).map (fun a => (a.dest, f a.dest))) gs extra2 := by
  intro gs extra hfa
  induction hfa with
  | nil => intro _ _ _; exact ⟨[], rfl, List.Forall₂.nil⟩
  | @cons g pn tlg tlp hgp htl ih =>
    intro hlook hnd hacc
    obtain ⟨hname, hrows⟩ := hgp
    have hinner : ∀ a ∈ nonHelp g,
        dlookup ((nonHelp g).map (fun a => (a.dest, f a.dest))) a.dest
          = some (f a.dest) := by
      intro a ha
      exact dlookup_map_eq Action.dest (fun a => f a.dest) (nonHelp g) a ha
        (hnd g (List.mem_cons_self _ _))
    obtain ⟨rows2, hset, hfst, hval⟩ := panel_pipeline ctx f (nonHelp g)
      pn.rows ((nonHelp g).map (fun a => (a.dest, f a.dest))) hrows hinner
      (fun a ha => hacc g (List.mem_cons_self _ _) a ha)
    obtain ⟨extra2, hsetp, hfa2⟩ := ih
      (fun g2 hg2 => hlook g2 (List.mem_cons_of_mem _ hg2))
      (fun g2 hg2 => hnd g2 (List.mem_cons_of_mem _ hg2))
      (fun g2 hg2 => hacc g2 (List.mem_cons_of_mem _ hg2))
    have hlk : dlookup vals pn.name
        = some (.dict ((nonHelp g).map (fun a => (a.dest, f a.dest)))) := by
      rw [hname]
      exact hlook g (List.mem_cons_self _ _)
    have hpanel : setPanel ctx vals pn = some ⟨pn.name, rows2⟩ := by
      rw [setPanel, hlk]
      show (gSetValues ctx ((nonHelp g).map (fun a => (a.dest, f a.dest)))
        pn.rows).map (fun rs => GroupPanel.mk pn.name rs) = _
      rw [hset]
      rfl
    refine ⟨⟨pn.name, rows2⟩ :: extra2, ?_, ?_⟩
    · rw [setPanels, hpanel, hsetp]
      rfl
    · exact List.Forall₂.cons ⟨hname, by simpa using hfst, by simpa using hval⟩ hfa2

/-- The fold of `ArgparseListWidget.getValues` over non-orphan panels
appends one nested entry per panel. -/
theorem lwGetValues_fold (orphan : String) :
    ∀ (ps : List GroupPanel) (settings : List (String × PyVal)),
      (∀ pn ∈ ps, pn.name ≠ orphan) →
      ((ps.map GroupPanel.name).Nodup) →
      (∀ pn ∈ ps, pn.name ∉ dkeys settings) →
      ps.foldl (fun st pn =>
        if pn.name = orphan then dictMerge st (gGetValues pn.rows)
        else dinsert st pn.name (.dict (gGetValues pn.rows))) settings
        = settings ++ ps.map (fun pn => (pn.name, PyVal.dict (gGetValues pn.rows))) := by
  intro ps
  induction ps with
  | nil => intro settings _ _ _; simp
  | cons pn tl ih =>
    intro settings hno hnd hfresh
    simp only [List.map_cons, List.nodup_cons] at hnd
    simp only [List.foldl_cons, if_neg (hno pn (List.mem_cons_self _ _))]
    rw [dinsert_notmem _ (hfresh pn (List.mem_cons_self _ _))]
    rw [ih (settings ++ [(pn.name, PyVal.dict (gGetValues pn.rows))])
      (fun q hq => hno q (List.mem_cons_of_mem _ hq)) hnd.2 ?_]
    · simp
    · intro q hq
      rw [dkeys_append]
      simp only [List.mem_append]
      push_neg
      refine ⟨hfresh q (List.mem_cons_of_mem _ hq), ?_⟩
      simp only [dkeys, List.map_cons, List.map_nil, List.mem_singleton]
      intro hc
      exact hnd.1 (hc ▸ List.mem_map_of_mem GroupPanel.name hq)

theorem forall₂_mem_right {α β : Type} {R : α → β → Prop} :
    ∀ {xs : List α} {ys : List β}, List.Forall₂ R xs ys →
      ∀ y ∈ ys, ∃ x ∈ xs, R x y := by
  intro xs ys h
  induction h with
  | nil => intro y hy; cases hy
  | cons hr htl ih =>
    intro y hy
    rcases List.mem_cons.mp hy with h2 | h2
    · exact ⟨_, List.mem_cons_self _ _, h2 ▸ hr⟩
    · obtain ⟨x, hx, hrx⟩ := ih y h2
      exact ⟨x, List.mem_cons_of_mem _ hx, hrx⟩

theorem fst_map_pat (f : String → PyVal) (l : List Action) :
    (l.map (fun a => (a.dest, f a.dest))).map Prod.fst = l.map Action.dest := by
  simp [List.map_map]

/-- `lwGetValues` unfolded on a literal state. -/
theorem lwGetValues_mk (o : String) (pans : List GroupPanel) :
    lwGetValues ⟨o, pans⟩
      = pans.foldl (fun settings pn =>
          if pn.name = o then dictMerge settings (gGetValues pn.rows)
          else dinsert settings pn.name (.dict (gGetValues pn.rows))) [] := rfl

/-! ## Claim C1 -/

/-- **C1** — get/set round trip: for a list widget (or dialog) built from a
parser, `setValues` with the nested dict that assigns a value to every
declared option (group title → dest → value, ungrouped dests at top level)
followed by `getValues` returns exactly that dict.  Hypotheses: the parser
has the real argparse shape (the two reserved buckets first, `wfShape`);
top-level keys, the orphan name, and per-group dests do not collide
(`wfNames`); the widget built successfully; and every assigned value is
faithfully stored by its option's widget (`wAccepts` — e.g. a string for a
text option, a value from the declared choices for a combo). -/
theorem claim1_get_set_roundtrip (ctx : Ctx) (p : Parser) (f : String → PyVal)
    (orphan : String) (LW : LWState)
    (hshape : wfShape p) (hnames : wfNames p orphan)
    (hb : buildListW ctx p orphan = some LW)
    (hacc : ∀ a ∈ allNonHelp p, ∀ w,
      makeWidget ctx (.action a) PyVal.none Option.none = some w →
      wAccepts ctx w (f a.dest) = true) :
    ∃ LW2, lwSetValues ctx LW (mkValues p f) = some LW2
      ∧ lwGetValues LW2 = mkValues p f
      ∧ (∀ d : DialogState, d.argparseWidget = LW →
          ∃ d2, d.setValues ctx (mkValues p f) = some d2
            ∧ d2.getValues = mkValues p f) := by
  obtain ⟨hlen, htake, hdrop⟩ := hshape
  obtain ⟨hndTop, horphan, hndCustom⟩ := hnames
  rcases hp : p.actionGroups with _ | ⟨g0, _ | ⟨g1, rest⟩⟩
  · rw [hp] at hlen; simp at hlen
  · rw [hp] at hlen; simp at hlen
  -- the real shape: g0, g1 reserved, rest custom
  have hres0 : g0.title ∈ reservedTitles := htake g0 (by rw [hp]; simp)
  have hres1 : g1.title ∈ reservedTitles := htake g1 (by rw [hp]; simp)
  have hrescust : ∀ g ∈ rest, g.title ∉ reservedTitles := by
    intro g hg
    exact hdrop g (by rw [hp]; simpa using hg)
  have hUeq : ungroupedDests p
      = (nonHelp g0).map Action.dest ++ (nonHelp g1).map Action.dest := by
    rw [ungroupedDests, hp]; simp
  have hCeq : customTitles p = rest.map ArgGroup.title := by
    rw [customTitles, hp]
    rfl
  have hndU : ((nonHelp g0).map Action.dest
      ++ (nonHelp g1).map Action.dest).Nodup := by
    rw [← hUeq]; exact (List.nodup_append.mp hndTop).1
  have hndU2 : ((nonHelp g0 ++ nonHelp g1).map Action.dest).Nodup := by
    rw [List.map_append]; exact hndU
  have hnd0 : ((nonHelp g0).map Action.dest).Nodup := (List.nodup_append.mp hndU).1
  have hnd1 : ((nonHelp g1).map Action.dest).Nodup :=
    (List.nodup_append.mp hndU).2.1
  have hndT : (rest.map ArgGroup.title).Nodup := by
    rw [← hCeq]; exact (List.nodup_append.mp hndTop).2.1
  have hdisjUT : List.Disjoint (ungroupedDests p) (customTitles p) :=
    (List.nodup_append.mp hndTop).2.2
  have hndCust : ∀ g ∈ rest, ((nonHelp g).map Action.dest).Nodup := by
    intro g hg
    exact hndCustom g (by rw [hp]; simpa using hg)
  -- canonical dict shape
  have hMV : mkValues p f
      = ((nonHelp g0 ++ nonHelp g1).map (fun a => (a.dest, f a.dest)))
        ++ rest.map (fun g => (g.title,
            PyVal.dict ((nonHelp g).map (fun a => (a.dest, f a.dest))))) := by
    rw [mkValues, hp]
    simp [List.map_append]
  have hlookU : ∀ a ∈ nonHelp g0 ++ nonHelp g1,
      dlookup (mkValues p f) a.dest = some (f a.dest) := by
    intro a ha
    rw [hMV, dlookup_append_mem]
    · exact dlookup_map_eq Action.dest (fun a => f a.dest) _ a ha hndU2
    · rw [dkeys, fst_map_pat]
      exact List.mem_map_of_mem Action.dest ha
  have hlookT : ∀ g ∈ rest, dlookup (mkValues p f) g.title
      = some (.dict ((nonHelp g).map (fun a => (a.dest, f a.dest)))) := by
    intro g hg
    rw [hMV, dlookup_append_right]
    · exact dlookup_map_eq ArgGroup.title
        (fun g => PyVal.dict ((nonHelp g).map (fun a => (a.dest, f a.dest))))
        rest g hg hndT
    · rw [dkeys, fst_map_pat, List.map_append, ← hUeq]
      intro hc
      exact hdisjUT hc (by rw [hCeq]; exact List.mem_map_of_mem ArgGroup.title hg)
  have hlookO : dlookup (mkValues p f) orphan = Option.none := by
    apply dlookup_notmem
    rw [hMV, dkeys_append, dkeys, fst_map_pat]
    intro hc
    apply horphan
    rcases List.mem_append.mp hc with h2 | h2
    · exact List.mem_append_left _ (by rw [hUeq, ← List.map_append]; exact h2)
    · refine List.mem_append_right _ ?_
      rw [hCeq]
      simp only [dkeys, List.map_map] at h2
      obtain ⟨g, hg, he⟩ := List.mem_map.mp h2
      exact he ▸ List.mem_map_of_mem ArgGroup.title hg
  -- accept facts, split by membership
  have haccU : ∀ a ∈ nonHelp g0 ++ nonHelp g1, ∀ w,
      makeWidget ctx (.action a) PyVal.none Option.none = some w →
      wAccepts ctx w (f a.dest) = true := by
    intro a ha
    apply hacc
    rw [allNonHelp, hp]
    simp only [List.map_cons, List.flatten_cons]
    rcases List.mem_append.mp ha with h2 | h2
    · exact List.mem_append_left _ h2
    · exact List.mem_append_right _ (List.mem_append_left _ h2)
  have haccT : ∀ g ∈ rest, ∀ a ∈ nonHelp g, ∀ w,
      makeWidget ctx (.action a) PyVal.none Option.none = some w →
      wAccepts ctx w (f a.dest) = true := by
    intro g hg a ha
    apply hacc
    rw [allNonHelp, hp]
    simp only [List.map_cons, List.flatten_cons]
    refine List.mem_append_right _ (List.mem_append_right _ ?_)
    exact List.mem_flatten.mpr ⟨nonHelp g, List.mem_map_of_mem nonHelp hg, ha⟩
  -- unfold the construction
  have horg : organizeIntoGroups p
      = (g0, innerDict g0) :: (g1, innerDict g1)
        :: rest.map (fun g => (g, innerDict g)) := by
    rw [organizeIntoGroups, hp]; simp
  rw [buildListW, horg] at hb
  have hrows0eq : (innerDict g0).map Prod.snd = nonHelp g0 := innerDict_values g0 hnd0
  have hrows1eq : (innerDict g1).map Prod.snd = nonHelp g1 := innerDict_values g1 hnd1
  rw [buildPanels] at hb
  cases hr0 : mkRows ctx (nonHelp g0) with
  | none =>
    have hstep0 : buildStep ctx orphan [] (g0, innerDict g0) = Option.none := by
      rw [buildStep, hrows0eq, hr0]; rfl
    rw [hstep0] at hb
    exact Option.noConfusion hb
  | some rows0 =>
  have hstep0 : buildStep ctx orphan [] (g0, innerDict g0)
      = some [⟨orphan, rows0⟩] := by
    rw [buildStep, hrows0eq, hr0]
    simp [hres0]
  rw [hstep0] at hb
  have hb2 : (buildPanels ctx orphan [⟨orphan, rows0⟩]
      ((g1, innerDict g1) :: rest.map (fun g => (g, innerDict g)))).map
      (fun ps => LWState.mk orphan ps) = some LW := hb
  rw [buildPanels] at hb2
  cases hr1 : mkRows ctx (nonHelp g1) with
  | none =>
    have hstep1 : buildStep ctx orphan [⟨orphan, rows0⟩] (g1, innerDict g1)
        = Option.none := by
      rw [buildStep, hrows1eq, hr1]; rfl
    rw [hstep1] at hb2
    exact Option.noConfusion hb2
  | some rows1 =>
  have hstep1 : buildStep ctx orphan [⟨orphan, rows0⟩] (g1, innerDict g1)
      = some [⟨orphan, rows0 ++ rows1⟩] := by
    rw [buildStep, hrows1eq, hr1]
    simp [hres1]
  rw [hstep1] at hb2
  have hb3 : (buildPanels ctx orphan [⟨orphan, rows0 ++ rows1⟩]
      (rest.map (fun g => (g, innerDict g)))).map
      (fun ps => LWState.mk orphan ps) = some LW := hb2
  cases hfold : buildPanels ctx orphan [⟨orphan, rows0 ++ rows1⟩]
      (rest.map (fun g => (g, innerDict g))) with
  | none => rw [hfold] at hb3; exact Option.noConfusion hb3
  | some ps =>
  rw [hfold] at hb3
  simp only [Option.map_some'] at hb3
  obtain rfl : LWState.mk orphan ps = LW := Option.some_inj.mp hb3
  obtain ⟨extra, hpseq, hfa⟩ := buildPanels_custom ctx orphan rest
    [⟨orphan, rows0 ++ rows1⟩] ps hrescust hfold
  subst hpseq
  have hfa2 : List.Forall₂ (fun g pn => pn.name = g.title
      ∧ mkRows ctx (nonHelp g) = some pn.rows) rest extra := by
    refine forall₂_imp_mem hfa ?_
    intro g hg pn hr
    refine ⟨hr.1, ?_⟩
    rw [← innerDict_values g (hndCust g hg)]
    exact hr.2
  -- the set stage
  have hmk01 : mkRows ctx (nonHelp g0 ++ nonHelp g1) = some (rows0 ++ rows1) :=
    mkRows_append ctx _ _ _ _ hr0 hr1
  obtain ⟨orows2, hsetO, hfstO, hvalO⟩ := panel_pipeline ctx f
    (nonHelp g0 ++ nonHelp g1) (rows0 ++ rows1) (mkValues p f) hmk01 hlookU haccU
  have hpanelO : setPanel ctx (mkValues p f) ⟨orphan, rows0 ++ rows1⟩
      = some ⟨orphan, orows2⟩ := by
    have hlk : dlookup (mkValues p f)
        (GroupPanel.mk orphan (rows0 ++ rows1)).name = Option.none := hlookO
    rw [setPanel, hlk]
    show (gSetValues ctx (mkValues p f) (rows0 ++ rows1)).map
      (fun rs => GroupPanel.mk orphan rs) = _
    rw [hsetO]
    rfl
  obtain ⟨extra2, hsetT, hfa3⟩ := setPanels_custom ctx f (mkValues p f)
    rest extra hfa2 hlookT hndCust haccT
  have hsetAll : setPanels ctx (mkValues p f)
      ([⟨orphan, rows0 ++ rows1⟩] ++ extra)
      = some (⟨orphan, orows2⟩ :: extra2) := by
    rw [List.singleton_append, setPanels, hpanelO, hsetT]
    rfl
  have hset : lwSetValues ctx (LWState.mk orphan ([⟨orphan, rows0 ++ rows1⟩] ++ extra))
      (mkValues p f) = some ⟨orphan, ⟨orphan, orows2⟩ :: extra2⟩ := by
    rw [lwSetValues]
    show (setPanels ctx (mkValues p f)
      ([⟨orphan, rows0 ++ rows1⟩] ++ extra)).map
      (fun ps2 => LWState.mk orphan ps2) = _
    rw [hsetAll]
    rfl
  -- the get stage
  have hg2 : gGetValues orows2
      = (nonHelp g0 ++ nonHelp g1).map (fun a => (a.dest, f a.dest)) := by
    rw [gGetValues_eq orows2 (by rw [hfstO]; exact hndU2), hvalO]
  have hget : lwGetValues ⟨orphan, ⟨orphan, orows2⟩ :: extra2⟩ = mkValues p f := by
    rw [lwGetValues_mk, List.foldl_cons, if_pos rfl, hg2,
      dictMerge_nil _ (by rw [fst_map_pat]; exact hndU2)]
    have hnames2 : extra2.map GroupPanel.name = rest.map ArgGroup.title := by
      refine forall₂_map_eq hfa3 ArgGroup.title GroupPanel.name ?_
      intro g hg pn2 hr
      exact hr.1
    rw [lwGetValues_fold orphan extra2
      ((nonHelp g0 ++ nonHelp g1).map (fun a => (a.dest, f a.dest)))
      ?_ ?_ ?_]
    · rw [hMV]
      congr 1
      refine forall₂_map_eq hfa3
        (fun g => (g.title,
          PyVal.dict ((nonHelp g).map (fun a => (a.dest, f a.dest)))))
        (fun pn => (pn.name, PyVal.dict (gGetValues pn.rows))) ?_
      intro g hg pn2 hr
      obtain ⟨hn, hfst2, hval2⟩ := hr
      show (pn2.name, PyVal.dict (gGetValues pn2.rows))
        = (g.title, PyVal.dict ((nonHelp g).map (fun a => (a.dest, f a.dest))))
      rw [hn, gGetValues_eq pn2.rows (by rw [hfst2]; exact hndCust g hg), hval2]
    · intro pn hpn
      obtain ⟨g, hg, hr⟩ := forall₂_mem_right hfa3 pn hpn
      rw [hr.1]
      intro hc
      apply horphan
      refine List.mem_append_right _ ?_
      rw [hCeq, ← hc]
      exact List.mem_map_of_mem ArgGroup.title hg
    · rw [hnames2]; exact hndT
    · intro pn hpn
      obtain ⟨g, hg, hr⟩ := forall₂_mem_right hfa3 pn hpn
      rw [hr.1, dkeys, fst_map_pat, List.map_append, ← hUeq]
      intro hc
      exact hdisjUT hc (by rw [hCeq]; exact List.mem_map_of_mem ArgGroup.title hg)
  refine ⟨⟨orphan, ⟨orphan, orows2⟩ :: extra2⟩, hset, hget, ?_⟩
  intro d hd
  refine ⟨⟨⟨orphan, ⟨orphan, orows2⟩ :: extra2⟩⟩, ?_, ?_⟩
  · rw [DialogState.setValues, hd, hset]
    rfl
  · rw [DialogState.getValues]
    exact hget

/-- Concrete list-widget built from `sampleParser`. -/
def LW1 : LWState :=
  (buildListW ctxNone sampleParser "Main").getD ⟨"Main", []⟩

theorem claim1_witness :
    ∃ LW2, lwSetValues ctxNone LW1 (mkValues sampleParser sampleArgs) = some LW2
      ∧ lwGetValues LW2 = mkValues sampleParser sampleArgs
      ∧ (∀ d : DialogState, d.argparseWidget = LW1 →
          ∃ d2, d.setValues ctxNone (mkValues sampleParser sampleArgs) = some d2
            ∧ d2.getValues = mkValues sampleParser sampleArgs) := by
  refine claim1_get_set_roundtrip ctxNone sampleParser sampleArgs "Main" LW1
    ⟨by decide, by decide, by decide⟩ ⟨by decide, by decide, by decide⟩ rfl ?_
  intro a ha w hw
  have ha2 : a = actName ∨ a = actNum := by
    have hm : a ∈ [actName, actNum] := ha
    simpa using hm
  rcases ha2 with rfl | rfl
  · obtain rfl := Option.some_inj.mp hw
    rfl
  · obtain rfl := Option.some_inj.mp hw
    rfl

/-- A bool-typed option, backed by a combo-box `BoolSelector`. -/
def actFlag : Action :=
  ⟨"flag", DataType.boolT, PyVal.none, Option.none, Option.none, .store⟩

/-- A parser with the two reserved buckets and no custom group, declaring
only the bool option `flag`. -/
def cexParser : Parser :=
  ⟨Option.none, [grpPos, ⟨"optional arguments", Option.none, [actFlag]⟩]⟩

/-- **C1** (counterexample) — the round trip is not unconditional: on the
list widget built from a parser declaring one bool option, `setValues` with
the mapping assigning `"x"` to that option (a value for every declared
option) succeeds, but `getValues` returns the `None` sentinel for it — the
combo-backed widget silently drops a value matching none of its entries, so
the returned mapping differs from the one set. -/
theorem claim1_cex :
    (((buildListW ctxNone cexParser "Main").bind
        (fun LW => lwSetValues ctxNone LW [("flag", PyVal.str "x")])).map
        lwGetValues)
      = some [("flag", PyVal.none)]
    ∧ PyVal.none ≠ PyVal.str "x" :=
  ⟨rfl, by decide⟩

end Argparseqt
